import Mathlib

/-!
# Prive Note+ : note lifecycle

A shallow embedding of `backend/controllers/notesController.js` (the three
Express handlers `createNote`, `getNote`, `deleteNote`), of the viewer page
`frontend/js/view-note.js` and of the share link built by
`frontend/js/create-note.js`, followed by the properties proved about them.

Conventions of the embedding
* A handler is a function from the ambient inputs it reads (clock, generated
  uuid, outcome of the database call), the `Notes` table and the request to
  the response it sends and the table afterwards.
* JavaScript numbers are `JSNum`: NaN, the two infinities, or a finite number
  held as a rational. The result of `+` and `*` on finite numbers is rounded
  to the nearest IEEE 754 double (`roundDouble`); the sign of zero is not
  represented.
* The `Notes` table is the list of its rows, in the order the rows are
  returned by a `SELECT`; a column holds the value that was bound to it and
  `NoteID = ?` is equality of strings.
-/

namespace PriveNote

/-! ## JavaScript values -/

/-- ECMAScript Number values: NaN, +Infinity, -Infinity, or a finite number
(a double, held as the rational it denotes). -/
inductive JSNum where
  | nan
  | posInf
  | negInf
  | fin (q : ℚ)
deriving DecidableEq

namespace JSNum

/-- Rounding of a rational to the nearest integer, ties to the even one. -/
def roundHalfEven (y : ℚ) : Int :=
  if y - ⌊y⌋ < 1 / 2 then ⌊y⌋
  else if 1 / 2 < y - ⌊y⌋ then ⌊y⌋ + 1
  else if ⌊y⌋ % 2 = 0 then ⌊y⌋ else ⌊y⌋ + 1

/-- The exponent of the unit in the last place of the doubles around `q`:
53 bits of precision, and the spacing of the subnormal numbers below
2 ^ (-1022). -/
def ulpExponent (q : ℚ) : Int := max (Int.log 2 |q|) (-1022) - 52

/-- The IEEE 754 binary64 value of a real result: the nearest double, ties to
even, and an infinity when the rounded magnitude reaches 2 ^ 1024. -/
def roundDouble (q : ℚ) : JSNum :=
  if (2 : ℚ) ^ (1024 : ℕ) ≤ (roundHalfEven (q / 2 ^ ulpExponent q) : ℚ) * 2 ^ ulpExponent q then
    posInf
  else if (roundHalfEven (q / 2 ^ ulpExponent q) : ℚ) * 2 ^ ulpExponent q
      ≤ -(2 : ℚ) ^ (1024 : ℕ) then
    negInf
  else fin ((roundHalfEven (q / 2 ^ ulpExponent q) : ℚ) * 2 ^ ulpExponent q)

/-- Number::multiply (the `*` operator on two Numbers). -/
def mul : JSNum → JSNum → JSNum
  | nan, _ => nan
  | _, nan => nan
  | fin a, fin b => roundDouble (a * b)
  | fin a, posInf => if a = 0 then nan else if 0 < a then posInf else negInf
  | fin a, negInf => if a = 0 then nan else if 0 < a then negInf else posInf
  | posInf, fin b => if b = 0 then nan else if 0 < b then posInf else negInf
  | negInf, fin b => if b = 0 then nan else if 0 < b then negInf else posInf
  | posInf, posInf => posInf
  | negInf, negInf => posInf
  | posInf, negInf => negInf
  | negInf, posInf => negInf

/-- Number::add (the `+` operator on two Numbers). -/
def add : JSNum → JSNum → JSNum
  | nan, _ => nan
  | _, nan => nan
  | fin a, fin b => roundDouble (a + b)
  | fin _, posInf => posInf
  | fin _, negInf => negInf
  | posInf, fin _ => posInf
  | negInf, fin _ => negInf
  | posInf, posInf => posInf
  | negInf, negInf => negInf
  | posInf, negInf => nan
  | negInf, posInf => nan

end JSNum

/-- The JSON-representable primitive values a request body field can hold;
`undefined` is a field that is absent. (Arrays and objects are not modelled.) -/
inductive JSVal where
  | undefined
  | null
  | bool (b : Bool)
  | num (n : JSNum)
  | str (s : String)
deriving DecidableEq

/-- ToBoolean: what `!v` and `v ? a : b` test. -/
def toBoolean : JSVal → Bool
  | .undefined => false
  | .null => false
  | .bool b => b
  | .num .nan => false
  | .num (.fin q) => decide (q ≠ 0)
  | .num _ => true
  | .str s => decide (s ≠ "")

/-- ToNumber; the conversion of a string (StringToNumber) is supplied by the
engine and is taken as the parameter `stringToNumber`. -/
def toNumber (stringToNumber : String → JSNum) : JSVal → JSNum
  | .undefined => .nan
  | .null => .fin 0
  | .bool b => if b then .fin 1 else .fin 0
  | .num n => n
  | .str s => stringToNumber s

/-- The time value of a `Date` object in milliseconds since the epoch; `none`
is an Invalid Date (time value NaN). -/
abbrev JSDate := Option Int

/-- The largest magnitude of a time value (8.64e15 ms). -/
def maxTime : Int := 8640000000000000

/-- Truncation toward zero (ToIntegerOrInfinity on a finite number). -/
def truncate (q : ℚ) : Int := if 0 ≤ q then ⌊q⌋ else ⌈q⌉

/-- The constructor call `new Date(value)` on a Number: TimeClip. -/
def newDate : JSNum → JSDate
  | .fin q => if |q| ≤ (maxTime : ℚ) then some (truncate q) else none
  | _ => none

/-- The comparison `new Date() > d` where the left operand is the current
instant `now`: both sides are converted to their time values, and a comparison
with NaN is false. -/
def nowAfter (now : Nat) : JSDate → Bool
  | some t => decide (t < (now : Int))
  | none => false

/-! ## The Notes table -/

/-- A row of the `Notes` table, with the columns the controller writes and
reads. `IsDeleted` is not listed by the INSERT and takes its default. -/
structure Row where
  NoteID : String
  UserID : String
  EncryptedContent : JSVal
  IV : JSVal
  CreatedAt : Int
  ExpiryTime : JSDate
  ViewOnce : Nat
  IsDeleted : Bool
deriving DecidableEq

/-- The `Notes` table. -/
abbrev Store := List Row

/-- The three statements the controller sends through `pool.query`. -/
inductive Sql where
  /-- The statement
  INSERT INTO Notes (NoteID, UserID, EncryptedContent, IV, CreatedAt, ExpiryTime, ViewOnce)
  VALUES (?, ?, ?, ?, NOW(), ?, ?). -/
  | insertNote (noteId userId : String) (encryptedContent iv : JSVal)
      (expiryDate : JSDate) (viewOnce : Nat)
  /-- The statement SELECT * FROM Notes WHERE NoteID=? AND IsDeleted=FALSE. -/
  | selectActive (id : String)
  /-- The statement UPDATE Notes SET IsDeleted=TRUE WHERE NoteID=?. -/
  | markDeleted (id : String)

/-- What a handler reads from outside its arguments: the clock (`Date.now()`,
`new Date()`, `NOW()`), the value returned by `uuidv4()`, whether the promise
of `pool.query` rejects (`some m`: it rejects with an error whose `message` is
`m`, for whatever reason the database has), and the engine's StringToNumber. -/
structure Ambient where
  now : Nat
  uuid : String
  dbError : Option String
  stringToNumber : String → JSNum

/-- Modelled from the spec: the schema of the `Notes` table is not part of the
sources; following the persisted layout of the spec, `IsDeleted` is a boolean
column whose default is false. -/
def defaultIsDeleted : Bool := false

/-- Rows selected by `WHERE NoteID=? AND IsDeleted=FALSE`. -/
def selectActive (db : Store) (id : String) : List Row :=
  db.filter (fun r => decide (r.NoteID = id) && !r.IsDeleted)

/-- Effect of `UPDATE Notes SET IsDeleted=TRUE WHERE NoteID=?`. -/
def markDeleted (db : Store) (id : String) : Store :=
  db.map (fun r => if r.NoteID = id then { r with IsDeleted := true } else r)

/-- The call `await pool.query(sql, params)`: either the promise rejects with
a message and the table is untouched, or the statement is executed; the result
is the selected rows (empty for INSERT and UPDATE) and the table afterwards. -/
def poolQuery (amb : Ambient) (db : Store) (q : Sql) : Except String (List Row × Store) :=
  match amb.dbError with
  | some m => .error m
  | none =>
    match q with
    | .insertNote noteId userId encryptedContent iv expiryDate viewOnce =>
        .ok ([], db ++ [{ NoteID := noteId, UserID := userId,
                          EncryptedContent := encryptedContent, IV := iv,
                          CreatedAt := amb.now, ExpiryTime := expiryDate,
                          ViewOnce := viewOnce, IsDeleted := defaultIsDeleted }])
    | .selectActive id => .ok (selectActive db id, db)
    | .markDeleted id => .ok ([], markDeleted db id)

/-! ## Requests and responses -/

/-- The fields `createNote` destructures from `req.body`. -/
structure ReqBody where
  encryptedContent : JSVal
  iv : JSVal
  expiryMinutes : JSVal
  viewOnce : JSVal

/-- An Express request as the handlers see it: `req.body`, `req.user.userId`
(set by the authentication middleware before the handler runs) and
`req.params.id`. -/
structure Request where
  body : ReqBody
  userId : String
  id : String

/-- The JSON bodies the handlers send. -/
inductive Body where
  /-- An object with the single field `error`. -/
  | error (error : String)
  /-- An object with the single field `noteId`. -/
  | created (noteId : String)
  /-- The object with fields encryptedContent, iv, viewOnce, expiryTime. -/
  | note (encryptedContent iv : JSVal) (viewOnce : Nat) (expiryTime : JSDate)
  /-- An object with the single field `message`. -/
  | message (message : String)
deriving DecidableEq

/-- A response: the status code (200 when `res.json` is called without
`res.status`) and the body. -/
structure Response where
  status : Nat
  body : Body
deriving DecidableEq

/-! ## The controller -/

/-- The expression `new Date(Date.now() + expiryMinutes * 60000)`. -/
def expiryDate (amb : Ambient) (expiryMinutes : JSVal) : JSDate :=
  newDate (JSNum.add (.fin amb.now)
    (JSNum.mul (toNumber amb.stringToNumber expiryMinutes) (.fin 60000)))

/-- Handler `exports.createNote`. -/
def createNote (amb : Ambient) (db : Store) (req : Request) : Response × Store :=
  let encryptedContent := req.body.encryptedContent
  let iv := req.body.iv
  let expiryMinutes := req.body.expiryMinutes
  let viewOnce := req.body.viewOnce
  let userId := req.userId
  if !toBoolean encryptedContent || !toBoolean iv || !toBoolean expiryMinutes then
    (⟨400, .error "Missing fields"⟩, db)
  else
    let noteId := amb.uuid
    let expiryDate := expiryDate amb expiryMinutes
    match poolQuery amb db
        (.insertNote noteId userId encryptedContent iv expiryDate
          (if toBoolean viewOnce then 1 else 0)) with
    | .ok (_, db') => (⟨201, .created noteId⟩, db')
    | .error m => (⟨500, .error m⟩, db)

/-- Handler `exports.getNote`. -/
def getNote (amb : Ambient) (db : Store) (req : Request) : Response × Store :=
  let id := req.id
  match poolQuery amb db (.selectActive id) with
  | .ok (rows, db') =>
    match rows with
    | [] => (⟨404, .error "Note not found or deleted"⟩, db')
    | note :: _ =>
      if nowAfter amb.now note.ExpiryTime then (⟨410, .error "Note expired"⟩, db')
      else
        (⟨200, .note note.EncryptedContent note.IV note.ViewOnce note.ExpiryTime⟩, db')
  | .error m => (⟨500, .error m⟩, db)

/-- Handler `exports.deleteNote`. -/
def deleteNote (amb : Ambient) (db : Store) (req : Request) : Response × Store :=
  let id := req.id
  match poolQuery amb db (.markDeleted id) with
  | .ok (_, db') => (⟨200, .message "Note deleted (self-destructed)"⟩, db')
  | .error m => (⟨500, .error m⟩, db)

/-- The row `createNote` binds to its INSERT. -/
def createdRow (amb : Ambient) (req : Request) : Row :=
  { NoteID := amb.uuid, UserID := req.userId,
    EncryptedContent := req.body.encryptedContent, IV := req.body.iv,
    CreatedAt := amb.now, ExpiryTime := expiryDate amb req.body.expiryMinutes,
    ViewOnce := if toBoolean req.body.viewOnce then 1 else 0, IsDeleted := false }

/-- The fields test of `createNote` passes. -/
def fieldsPresent (req : Request) : Bool :=
  toBoolean req.body.encryptedContent && toBoolean req.body.iv &&
    toBoolean req.body.expiryMinutes

/-! ## Runs of the engine -/

/-- The three operations of the controller. -/
inductive Op where
  | create
  | get
  | delete
deriving DecidableEq

/-- One request served by the controller. -/
def step (op : Op) (amb : Ambient) (db : Store) (req : Request) : Response × Store :=
  match op with
  | .create => createNote amb db req
  | .get => getNote amb db req
  | .delete => deleteNote amb db req

/-- The table after a finite sequence of requests, each served under its own
ambient inputs. -/
def run (db : Store) : List (Op × Ambient × Request) → Store
  | [] => db
  | (op, amb, req) :: rest => run (step op amb db req).2 rest

/-- NoteIDs are unique in the table. -/
def UniqueIds (db : Store) : Prop := (db.map Row.NoteID).Nodup

instance (db : Store) : Decidable (UniqueIds db) := by
  unfold UniqueIds; infer_instance

/-! ## The viewer page (`view-note.js`) -/

namespace Viewer

/-- The object held by the global `noteData`. `attemptLimit` and
`attemptsLeft` are integers. -/
structure NoteData where
  noteId : String
  encryptedContent : String
  iv : String
  recipientEmail : Option String
  expiryTime : Int
  attemptLimit : Int
  attemptsLeft : Int
  viewOnce : Bool
  createdAt : Int

/-- The part of the page the script reads and writes: the global `noteData`
(`none` is `null`), which state cards are displayed, the error card, the
attempts counter element and the toasts raised so far (latest first). -/
structure Page where
  noteData : Option NoteData
  display : String → Bool
  errorTitle : String
  errorMessage : String
  attemptsText : String
  attemptsColorError : Bool
  toasts : List (String × String)

/-- The array `states` of `showState`. -/
def states : List String :=
  ["loadingState", "biometricState", "noteContentState", "errorState", "destroyedState"]

/-- Function `showState(stateId)`: of the five state cards, exactly the one
named is displayed. -/
def showState (stateId : String) (p : Page) : Page :=
  { p with display := fun id => if id ∈ states then decide (id = stateId) else p.display id }

/-- Function `showError(title, message)`. -/
def showError (title message : String) (p : Page) : Page :=
  showState "errorState" { p with errorTitle := title, errorMessage := message }

/-- Function `showToast(message, type)` (defined outside this script): the
toast is recorded. -/
def showToast (message type : String) (p : Page) : Page :=
  { p with toasts := (message, type) :: p.toasts }

/-- Function `updateAttemptsDisplay()`; it is only called with `noteData` set. -/
def updateAttemptsDisplay (p : Page) : Page :=
  match p.noteData with
  | none => p
  | some nd =>
    { p with attemptsText := toString nd.attemptsLeft,
             attemptsColorError := if nd.attemptsLeft ≤ 1 then true else p.attemptsColorError }

/-- The `catch (error)` block of the click handler of `verifyBiometricBtn`:
what the page does when `verifyAndDecrypt` throws an error with message
`message`. -/
def verifyFailed (message : String) (p : Page) : Page :=
  let p := showToast ("❌ " ++ message) "error" p
  match p.noteData with
  | none => p
  | some nd =>
    if 0 < nd.attemptsLeft then
      let nd := { nd with attemptsLeft := nd.attemptsLeft - 1 }
      let p := updateAttemptsDisplay { p with noteData := some nd }
      if nd.attemptsLeft = 0 then
        showError "Maximum Attempts Exceeded"
          "You have used all available attempts to access this note." p
      else p
    else p

/-- The page after the verifications whose error messages are listed have
failed, in that order. -/
def failures (p : Page) : List String → Page
  | [] => p
  | m :: rest => failures (verifyFailed m p) rest

/-- The object literal assigned to `noteData` in `loadNoteMetadata` (the
simulated server answer); `now` is `Date.now()` and `random` the text of
`Math.random()` appended to the fake ciphertext. -/
def simulatedMetadata (noteId : String) (now : Nat) (random : String) : NoteData :=
  { noteId := noteId,
    encryptedContent :=
      "U2FsdGVkX1+vupppZksvRf5pq5g5XjFRIipRkwB0K1Y96Qsv2Lm+31cmzaAILwytX/0=" ++ random,
    iv := "YWJjZGVmZ2hpamts",
    recipientEmail := none,
    expiryTime := now + 10 * 60 * 1000,
    attemptLimit := 3,
    attemptsLeft := 3,
    viewOnce := true,
    createdAt := now - 2 * 60 * 1000 }

/-- Function `loadNoteMetadata(noteId)`: the loading card is shown, `noteData`
is assigned the simulated object, then the expiry and the attempts of that
object are checked. `now` is `Date.now()` in the object literal and `nowCheck`
the instant of `new Date()` in the expiry check. The result is the page and,
when the function throws, the message of the Error thrown. -/
def loadNoteMetadata (noteId : String) (now nowCheck : Nat) (random : String) (p : Page) :
    Page × Option String :=
  let p := showState "loadingState" p
  let noteData := simulatedMetadata noteId now random
  let p := { p with noteData := some noteData }
  if noteData.expiryTime < (nowCheck : Int) then
    (p, some "This note has expired and is no longer available.")
  else if noteData.attemptsLeft ≤ 0 then
    (p, some "Maximum access attempts exceeded for this note.")
  else (p, none)

/-- A page showing the verification card for a note with `n` attempts left. -/
def demoPage (n : Int) : Page :=
  { noteData := some { simulatedMetadata "X" 1000000 "0.5" with attemptLimit := n,
                                                                 attemptsLeft := n },
    display := fun id => decide (id = "biometricState"),
    errorTitle := "", errorMessage := "", attemptsText := toString n,
    attemptsColorError := decide (n ≤ 1), toasts := [] }

end Viewer


/-! ## The share link (`create-note.js`) -/

namespace Creator

/-- The string `chars` of `generateNoteId`. -/
def chars : String := "ABCDEFGHIJKLMNOPQRSTUVWXYZabcdefghijklmnopqrstuvwxyz0123456789"

/-- Method `charAt(i)` on a string of ASCII characters: the one-character
string at index `i`, the empty string when `i` is out of range. -/
def charAt (s : String) (i : Int) : String :=
  if 0 ≤ i then
    match s.data[i.toNat]? with
    | some c => String.singleton c
    | none => ""
  else ""

/-- Function `generateNoteId()`; `random i` is the value returned by the call
of `Math.random()` in round `i` of the loop. -/
def generateNoteId (random : Nat → ℚ) : String :=
  (List.range 12).foldl
    (fun id i => id ++ charAt chars ⌊random i * (chars.length : ℚ)⌋) ""

/-- The object `noteMetadata` the submit handler prepares for the server. -/
structure NoteMetadata where
  noteId : String
  encryptedContent : String
  iv : String
  recipientEmail : Option String
  expiryMinutes : JSNum
  attemptLimit : JSNum
  viewOnce : Bool
  createdAt : String
deriving DecidableEq

/-- The values the submit handler holds when it prepares its outputs: the
form fields (`recipientEmail` trimmed, `expiryMinutes` and `attemptLimit`
after `parseInt`), the results of the helpers `encryptText` and `exportKey`
(defined outside this script), the generated note id, the text of
`new Date().toISOString()` and `window.location.origin`. -/
structure Submission where
  recipientEmail : String
  expiryMinutes : JSNum
  attemptLimit : JSNum
  viewOnce : Bool
  ciphertext : String
  iv : String
  keyBase64 : String
  noteId : String
  createdAt : String
  origin : String

/-- The object literal assigned to `noteMetadata`. -/
def noteMetadata (s : Submission) : NoteMetadata :=
  { noteId := s.noteId,
    encryptedContent := s.ciphertext,
    iv := s.iv,
    recipientEmail := if s.recipientEmail = "" then none else some s.recipientEmail,
    expiryMinutes := s.expiryMinutes,
    attemptLimit := s.attemptLimit,
    viewOnce := s.viewOnce,
    createdAt := s.createdAt }

/-- The template literal assigned to `shareLink`. -/
def shareLink (origin noteId keyBase64 : String) : String :=
  origin ++ "/frontend/view-note.html?id=" ++ noteId ++ "#key=" ++ keyBase64

/-- The part of a link before its first `#`: what a browser sends to the
server. -/
def beforeHash (href : String) : String :=
  ⟨href.data.takeWhile (fun c => c ≠ '#')⟩

end Creator

/-! ## Reading the link (`view-note.js`) -/

namespace Viewer

/-- The two components of `window.location` the script reads. -/
structure Location where
  search : String
  hash : String
deriving DecidableEq

/-- The browser's `window.location` for the page opened at `href`: the
fragment starts at the first `#`, the query at the first `?` before it;
`search` and `hash` are empty when the component is empty, else they carry the
leading `?` or `#`. The URL parser leaves letters, digits and the characters
`+ / = & ? .` as they are; its percent-encoding of other characters is not
represented. -/
def locationOf (href : String) : Location :=
  let front := href.data.takeWhile (fun c => c ≠ '#')
  let fragment := (href.data.dropWhile (fun c => c ≠ '#')).drop 1
  let query := (front.dropWhile (fun c => c ≠ '?')).drop 1
  { search := if query = [] then "" else ⟨'?' :: query⟩,
    hash := if fragment = [] then "" else ⟨'#' :: fragment⟩ }

/-- Strict split of a character sequence on a separator. -/
def splitOnChar (sep : Char) : List Char → List (List Char)
  | [] => [[]]
  | c :: cs =>
    if c = sep then [] :: splitOnChar sep cs
    else
      match splitOnChar sep cs with
      | [] => [[c]]
      | piece :: more => (c :: piece) :: more

/-- The value of a hexadecimal digit. -/
def hexVal (c : Char) : Option Nat :=
  if '0' ≤ c ∧ c ≤ '9' then some (c.toNat - 48)
  else if 'a' ≤ c ∧ c ≤ 'f' then some (c.toNat - 87)
  else if 'A' ≤ c ∧ c ≤ 'F' then some (c.toNat - 55)
  else none

/-- Percent-decoding followed by UTF-8 decoding: a character that does not
start an escape stands for itself, and each maximal run of escapes `%XY` is
turned into bytes and decoded by `utf8Decode` (the decoder of the browser).
`run` holds the bytes of the escapes read so far. -/
def percentDecode (utf8Decode : List Nat → List Char) : List Nat → List Char → List Char
  | run, [] => if run = [] then [] else utf8Decode run
  | run, c :: tl@(a :: b :: rest2) =>
    if c = '%' then
      match hexVal a, hexVal b with
      | some x, some y => percentDecode utf8Decode (run ++ [16 * x + y]) rest2
      | _, _ => (if run = [] then [] else utf8Decode run) ++ c :: percentDecode utf8Decode [] tl
    else (if run = [] then [] else utf8Decode run) ++ c :: percentDecode utf8Decode [] tl
  | run, c :: rest =>
    (if run = [] then [] else utf8Decode run) ++ c :: percentDecode utf8Decode [] rest

/-- Decoding of a name or a value of a query string: `+` stands for a space,
then percent-decoding. -/
def formDecode (utf8Decode : List Nat → List Char) (l : List Char) : List Char :=
  percentDecode utf8Decode [] (l.map (fun c => if c = '+' then ' ' else c))

/-- The expression `new URLSearchParams(search).get(name)`: a leading `?` is
dropped, the rest is split on `&`, each non-empty piece is split at its first
`=` into a name and a value, both are decoded, and the value of the first pair
with the name asked for is returned (`none` is `null`). -/
def urlSearchParamsGet (utf8Decode : List Nat → List Char) (search name : String) :
    Option String :=
  let input := if search.data.head? = some '?' then search.data.drop 1 else search.data
  let pairs := (splitOnChar '&' input).filterMap (fun piece =>
    if piece = [] then none
    else some (formDecode utf8Decode (piece.takeWhile (fun c => c ≠ '=')),
               formDecode utf8Decode ((piece.dropWhile (fun c => c ≠ '=')).drop 1)))
  (pairs.find? (fun p => decide (p.1 = name.data))).map (fun p => ⟨p.2⟩)

/-- The regular expression `#key=([^&]+)` tried at the start of the text: the
capture group is the longest run of characters other than `&`, and must not be
empty. -/
def keyAt : List Char → Option (List Char)
  | '#' :: 'k' :: 'e' :: 'y' :: '=' :: rest =>
    if rest.takeWhile (fun c => c ≠ '&') = [] then none
    else some (rest.takeWhile (fun c => c ≠ '&'))
  | _ => none

/-- The capture group of the first match of `#key=([^&]+)` in the text: the
expression `urlHash.match(...)` followed by `keyMatch ? keyMatch[1] : null`. -/
def matchKey : List Char → Option (List Char)
  | [] => none
  | c :: cs =>
    match keyAt (c :: cs) with
    | some k => some k
    | none => matchKey cs

/-- The constants `noteId` and `encryptionKey` of the DOMContentLoaded
handler (`none` is `null`). -/
structure LinkParts where
  noteId : Option String
  encryptionKey : Option String
deriving DecidableEq

/-- The first lines of the DOMContentLoaded handler: reading the note id and
the key from `window.location`. -/
def readLink (utf8Decode : List Nat → List Char) (loc : Location) : LinkParts :=
  { noteId := urlSearchParamsGet utf8Decode loc.search "id",
    encryptionKey := (matchKey loc.hash.data).map (fun k => ⟨k⟩) }

/-- Truthiness of a value that is `null` or a string. -/
def truthy : Option String → Bool
  | none => false
  | some s => decide (s ≠ "")

/-- The test `!noteId || !encryptionKey` of the handler: when it holds the
page shows the error "Invalid Link" and stops. -/
def invalidLink (parts : LinkParts) : Bool :=
  !truthy parts.noteId || !truthy parts.encryptionKey

/-- The page after the validation of the link, and whether the handler goes
on to load the note. -/
def validateLink (parts : LinkParts) (p : Page) : Page × Bool :=
  if invalidLink parts then
    (showError "Invalid Link"
      "This link is malformed or incomplete. Please check the URL and try again." p, false)
  else (p, true)

/-- The characters of a base64 text: letters, digits, `+`, `/` and `=`. -/
def isBase64Char (c : Char) : Bool :=
  c.isAlphanum || c = '+' || c = '/' || c = '='

/-- A decoder of escape bytes for the concrete inputs: each byte as the
character of that code. -/
def demoDecode (bytes : List Nat) : List Char :=
  bytes.map Char.ofNat

end Viewer

/-! ## Concrete inputs -/

/-- An ambient: instant 1000000 ms, the uuid X, a database call that succeeds;
strings convert to NaN. -/
def demoAmbient : Ambient :=
  { now := 1000000, uuid := "X", dbError := none, stringToNumber := fun _ => .nan }

/-- The create request of the scenario of the spec: ciphertext ABCD, iv 1234,
ten minutes, view once, sent by alice. -/
def demoCreate : Request :=
  { body := { encryptedContent := .str "ABCD", iv := .str "1234",
              expiryMinutes := .num (.fin 10), viewOnce := .bool true },
    userId := "alice", id := "" }

/-- A request for note X (fetch or delete) sent by `user`. -/
def demoFor (user : String) : Request :=
  { body := { encryptedContent := .undefined, iv := .undefined,
              expiryMinutes := .undefined, viewOnce := .undefined },
    userId := user, id := "X" }

/-- A create request like `demoCreate` whose expiryMinutes is -5. -/
def negativeCreate : Request :=
  { body := { encryptedContent := .str "ABCD", iv := .str "1234",
              expiryMinutes := .num (.fin (-5)), viewOnce := .bool true },
    userId := "alice", id := "" }

/-- The row of note X as `demoCreate` leaves it: owned by alice, not deleted. -/
def demoRow : Row :=
  { NoteID := "X", UserID := "alice", EncryptedContent := .str "ABCD", IV := .str "1234",
    CreatedAt := 1000000, ExpiryTime := some 1600000, ViewOnce := 1, IsDeleted := false }

/-- The ambient `demoAmbient` with a database call that rejects with message `m`. -/
def failingAmbient (m : String) : Ambient :=
  { demoAmbient with dbError := some m }

/-- The ambient `demoAmbient` at instant `t`. -/
def demoAt (t : Nat) : Ambient :=
  { demoAmbient with now := t }

/-- A create request like `demoCreate` whose expiryMinutes is the double
1 - 2 ^ (-30), that is 1073741823 / 1073741824 (about 0.99999999907). -/
def fractionalCreate : Request :=
  { body := { encryptedContent := .str "ABCD", iv := .str "1234",
              expiryMinutes := .num (.fin (1073741823 / 1073741824)), viewOnce := .bool true },
    userId := "alice", id := "" }

/-! ## Auxiliary facts -/

theorem toBoolean_str (s : String) (h : s ≠ "") : toBoolean (.str s) = true := by
  simp [toBoolean, h]

theorem toBoolean_fin (q : ℚ) (h : q ≠ 0) : toBoolean (.num (.fin q)) = true := by
  simp [toBoolean, h]

namespace JSNum

theorem roundHalfEven_int (k : Int) : roundHalfEven (k : ℚ) = k := by
  simp [roundHalfEven]

theorem roundHalfEven_ge (k : Int) (y : ℚ) (h : (k : ℚ) ≤ y) : k ≤ roundHalfEven y := by
  have hk : k ≤ ⌊y⌋ := Int.le_floor.2 h
  unfold roundHalfEven
  split_ifs <;> omega

theorem roundHalfEven_near (m : Int) (y : ℚ) (h : |y - m| < 1 / 2) :
    roundHalfEven y = m := by
  rw [abs_lt] at h
  by_cases hm : (m : ℚ) ≤ y
  · have hf : ⌊y⌋ = m := by
      rw [Int.floor_eq_iff]; constructor <;> linarith
    unfold roundHalfEven
    rw [hf, if_pos (by linarith)]
  · have hf : ⌊y⌋ = m - 1 := by
      rw [Int.floor_eq_iff]; push_cast; constructor <;> linarith
    unfold roundHalfEven
    rw [hf, if_neg (by push_cast; linarith), if_pos (by push_cast; linarith)]
    omega

/-- The value of `roundDouble` once the rounded multiple of the unit is known
and is in range. -/
theorem roundDouble_eq (q r : ℚ)
    (hr : (roundHalfEven (q / 2 ^ ulpExponent q) : ℚ) * 2 ^ ulpExponent q = r)
    (h1 : r < (2 : ℚ) ^ (1024 : ℕ)) (h2 : -(2 : ℚ) ^ (1024 : ℕ) < r) :
    roundDouble q = fin r := by
  unfold roundDouble
  rw [hr, if_neg (not_le.2 h1), if_neg (not_le.2 h2)]

/-- With a unit that is a power of two not above 1, every integer is a
multiple of the unit. -/
theorem int_multiple (e : Int) (he : e ≤ 0) (z : Int) :
    ∃ k : Int, (z : ℚ) / 2 ^ e = (k : ℚ) ∧ (k : ℚ) * 2 ^ e = (z : ℚ) := by
  obtain ⟨n, hn⟩ : ∃ n : ℕ, e = -(n : Int) := ⟨(-e).toNat, by omega⟩
  refine ⟨z * 2 ^ n, ?_, ?_⟩
  · rw [hn, zpow_neg, zpow_natCast]; push_cast; field_simp
  · rw [hn, zpow_neg, zpow_natCast]; push_cast; field_simp

theorem ulpExponent_nonpos (q : ℚ) (h : |q| < (2 : ℚ) ^ (53 : ℕ)) : ulpExponent q ≤ 0 := by
  unfold ulpExponent
  have : Int.log 2 |q| < 53 := by
    by_cases h0 : 0 < |q|
    · rw [← Int.lt_zpow_iff_log_lt (by norm_num) h0]
      exact_mod_cast h
    · have : |q| ≤ 0 := not_lt.1 h0
      rw [Int.log_of_right_le_zero _ this]; norm_num
  omega

theorem roundDouble_int (z : Int) (hz : |(z : ℚ)| < (2 : ℚ) ^ (53 : ℕ)) :
    roundDouble (z : ℚ) = fin (z : ℚ) := by
  obtain ⟨k, hk1, hk2⟩ := int_multiple (ulpExponent (z : ℚ)) (ulpExponent_nonpos _ hz) z
  have hlt := abs_lt.1 hz
  apply roundDouble_eq
  · rw [hk1, roundHalfEven_int, hk2]
  · have : (2 : ℚ) ^ (53 : ℕ) < (2 : ℚ) ^ (1024 : ℕ) := by norm_num
    linarith
  · have : (2 : ℚ) ^ (53 : ℕ) < (2 : ℚ) ^ (1024 : ℕ) := by norm_num
    linarith

/-- Rounding never falls below a whole number of at most 2 ^ 53 that the exact
result reaches. -/
theorem roundDouble_ge (n : ℕ) (hn : (n : ℚ) ≤ (2 : ℚ) ^ (53 : ℕ)) (x : ℚ) (hx : (n : ℚ) ≤ x) :
    roundDouble x = posInf ∨ ∃ r : ℚ, roundDouble x = fin r ∧ (n : ℚ) ≤ r := by
  have hs : (0 : ℚ) < 2 ^ ulpExponent x := by positivity
  have hx0 : (0 : ℚ) ≤ x := le_trans (Nat.cast_nonneg n) hx
  have key : (n : ℚ) ≤ (roundHalfEven (x / 2 ^ ulpExponent x) : ℚ) * 2 ^ ulpExponent x := by
    by_cases he : ulpExponent x ≤ 0
    · obtain ⟨k, hk1, hk2⟩ := int_multiple (ulpExponent x) he (n : Int)
      have hk3 : (k : ℚ) ≤ x / 2 ^ ulpExponent x := by
        rw [← hk1]; push_cast
        exact div_le_div_of_nonneg_right hx (le_of_lt hs)
      have hk4 : k ≤ roundHalfEven (x / 2 ^ ulpExponent x) := roundHalfEven_ge k _ hk3
      have hk5 : (k : ℚ) ≤ (roundHalfEven (x / 2 ^ ulpExponent x) : ℚ) := by exact_mod_cast hk4
      have hk6 : (k : ℚ) * 2 ^ ulpExponent x = (n : ℚ) := by rw [hk2]; push_cast; rfl
      rw [← hk6]
      exact mul_le_mul_of_nonneg_right hk5 (le_of_lt hs)
    · have he1 : 1 ≤ ulpExponent x := by omega
      have hlog : 53 ≤ Int.log 2 |x| := by unfold ulpExponent at he1; omega
      have hxpos : 0 < |x| := by
        by_contra h0
        rw [Int.log_of_right_le_zero _ (not_lt.1 h0)] at hlog
        omega
      have hle : (2 : ℚ) ^ (Int.log 2 |x|) ≤ |x| := by
        have := Int.zpow_log_le_self (b := 2) (r := |x|) (by norm_num) hxpos
        exact_mod_cast this
      rw [abs_of_nonneg hx0] at hle
      have hmax : max (Int.log 2 x) (-1022) = Int.log 2 x := by
        rw [abs_of_nonneg hx0] at hlog; omega
      have hexp : Int.log 2 x = ulpExponent x + 52 := by
        unfold ulpExponent; rw [abs_of_nonneg hx0, hmax]; omega
      rw [hexp, zpow_add₀ (by norm_num : (2 : ℚ) ≠ 0)] at hle
      have h52 : ((2 ^ 52 : Int) : ℚ) ≤ x / 2 ^ ulpExponent x := by
        rw [le_div_iff₀ hs]; push_cast
        calc (2 : ℚ) ^ 52 * 2 ^ ulpExponent x = 2 ^ ulpExponent x * 2 ^ (52 : Int) := by
              rw [mul_comm]; norm_num
          _ ≤ x := hle
      have hm : (2 ^ 52 : Int) ≤ roundHalfEven (x / 2 ^ ulpExponent x) :=
        roundHalfEven_ge _ _ h52
      have hm2 : ((2 : ℚ) ^ 52) ≤ (roundHalfEven (x / 2 ^ ulpExponent x) : ℚ) := by
        exact_mod_cast hm
      have hs2 : (2 : ℚ) ≤ 2 ^ ulpExponent x := by
        calc (2 : ℚ) = 2 ^ (1 : Int) := by norm_num
          _ ≤ 2 ^ ulpExponent x := zpow_le_zpow_right₀ (by norm_num) he1
      calc (n : ℚ) ≤ 2 ^ (53 : ℕ) := hn
        _ = 2 ^ 52 * 2 := by norm_num
        _ ≤ (roundHalfEven (x / 2 ^ ulpExponent x) : ℚ) * 2 ^ ulpExponent x :=
            mul_le_mul hm2 hs2 (by norm_num) (le_trans (by norm_num) hm2)
  unfold roundDouble
  by_cases h1 : (2 : ℚ) ^ (1024 : ℕ) ≤
      (roundHalfEven (x / 2 ^ ulpExponent x) : ℚ) * 2 ^ ulpExponent x
  · left; rw [if_pos h1]
  · right
    have h2 : ¬ (roundHalfEven (x / 2 ^ ulpExponent x) : ℚ) * 2 ^ ulpExponent x
        ≤ -(2 : ℚ) ^ (1024 : ℕ) := by
      intro h
      have : (0 : ℚ) ≤ (n : ℚ) := Nat.cast_nonneg n
      have : (0 : ℚ) < (2 : ℚ) ^ (1024 : ℕ) := by positivity
      linarith
    rw [if_neg h1, if_neg h2]
    exact ⟨_, rfl, key⟩

/-- The exponent of the unit for a number between two consecutive powers of
two. -/
theorem ulpExponent_eq (q : ℚ) (L : Int) (h1 : (2 : ℚ) ^ L ≤ |q|) (h2 : |q| < (2 : ℚ) ^ (L + 1))
    (h3 : -1022 ≤ L) : ulpExponent q = L - 52 := by
  have hpos : 0 < |q| := lt_of_lt_of_le (by positivity) h1
  have hl1 : L ≤ Int.log 2 |q| := by
    rw [← Int.zpow_le_iff_le_log (by norm_num) hpos]; exact_mod_cast h1
  have hl2 : Int.log 2 |q| < L + 1 := by
    rw [← Int.lt_zpow_iff_log_lt (by norm_num) hpos]; exact_mod_cast h2
  unfold ulpExponent
  omega

/-- The double nearest to `q`, from the power of two below `q` and the nearest
multiple `m` of the unit. -/
theorem roundDouble_near (q : ℚ) (L m : Int) (h1 : (2 : ℚ) ^ L ≤ |q|)
    (h2 : |q| < (2 : ℚ) ^ (L + 1)) (h3 : -1022 ≤ L)
    (h4 : |q / 2 ^ (L - 52) - (m : ℚ)| < 1 / 2)
    (h5 : (m : ℚ) * 2 ^ (L - 52) < (2 : ℚ) ^ (1024 : ℕ))
    (h6 : -(2 : ℚ) ^ (1024 : ℕ) < (m : ℚ) * 2 ^ (L - 52)) :
    roundDouble q = fin ((m : ℚ) * 2 ^ (L - 52)) := by
  apply roundDouble_eq _ _ _ h5 h6
  rw [ulpExponent_eq q L h1 h2 h3, roundHalfEven_near m _ h4]

end JSNum

theorem truncate_of_nonneg (q : ℚ) (h : 0 ≤ q) : truncate q = ⌊q⌋ := by
  simp [truncate, h]

theorem truncate_int (z : Int) : truncate (z : ℚ) = z := by
  unfold truncate
  split_ifs <;> simp

theorem maxTime_lt : (maxTime : ℚ) + 1 < (2 : ℚ) ^ (53 : ℕ) := by
  norm_num [maxTime]

/-- The expiry date computed from a finite number of minutes: the product and
the sum are each rounded to a double. -/
theorem expiryDate_fin (amb : Ambient) (T : ℚ) :
    expiryDate amb (.num (.fin T)) =
      newDate (JSNum.add (.fin amb.now) (JSNum.roundDouble (T * 60000))) := by
  simp [expiryDate, toNumber, JSNum.mul]

/-- With a whole number of minutes, in the range where whole numbers are
doubles, the expiry date is exact. -/
theorem expiryDate_int (amb : Ambient) (T : ℚ) (z : Int) (hT : T = (z : ℚ))
    (h1 : |(z : ℚ) * 60000| < (2 : ℚ) ^ (53 : ℕ))
    (h2 : |(amb.now : ℚ) + (z : ℚ) * 60000| ≤ (maxTime : ℚ)) :
    expiryDate amb (.num (.fin T)) = some ((amb.now : Int) + z * 60000) := by
  rw [expiryDate_fin, hT]
  have e1 : JSNum.roundDouble ((z : ℚ) * 60000) = .fin (((z * 60000 : Int)) : ℚ) := by
    have h := JSNum.roundDouble_int (z * 60000) (by push_cast; exact h1)
    push_cast at h ⊢
    exact h
  have hsum : (amb.now : ℚ) + ((z * 60000 : Int) : ℚ) =
      ((((amb.now : Int) + z * 60000 : Int)) : ℚ) := by push_cast; ring
  have h3 : |((((amb.now : Int) + z * 60000 : Int)) : ℚ)| ≤ (maxTime : ℚ) := by
    rw [← hsum]; push_cast; exact h2
  have e2 := JSNum.roundDouble_int ((amb.now : Int) + z * 60000)
    (lt_of_le_of_lt h3 (by linarith [maxTime_lt]))
  rw [e1]
  simp only [JSNum.add]
  rw [hsum, e2]
  simp only [newDate]
  rw [if_pos h3, truncate_int]

/-- A sum that exceeds the range of time values gives an Invalid Date. -/
theorem newDate_roundDouble_none (x : ℚ) (hx : (maxTime : ℚ) + 1 ≤ x) :
    newDate (JSNum.roundDouble x) = none := by
  have hm : ((8640000000000001 : ℕ) : ℚ) = (maxTime : ℚ) + 1 := by norm_num [maxTime]
  rcases JSNum.roundDouble_ge 8640000000000001 (by norm_num) x (by rw [hm]; exact hx) with
    h | ⟨r, h, hr⟩
  · rw [h]; rfl
  · rw [h]
    simp only [newDate]
    rw [if_neg]
    intro habs
    have := le_abs_self r
    rw [hm] at hr
    linarith

/-- With a positive number of minutes the note is not expired at the instant
of its creation. -/
theorem nowAfter_expiryDate_self (amb : Ambient) (T : ℚ) (hpos : 0 < T) :
    nowAfter amb.now (expiryDate amb (.num (.fin T))) = false := by
  rw [expiryDate_fin]
  rcases JSNum.roundDouble_ge 0 (by norm_num) (T * 60000) (by push_cast; positivity) with
    h | ⟨y, h, hy⟩
  · rw [h]; rfl
  · rw [h]
    simp only [JSNum.add]
    have hy0 : (0 : ℚ) ≤ y := by exact_mod_cast hy
    by_cases hn : ((amb.now : Int)) ≤ maxTime
    · have hnq : (amb.now : ℚ) ≤ (maxTime : ℚ) := by exact_mod_cast hn
      rcases JSNum.roundDouble_ge amb.now (by linarith [maxTime_lt]) ((amb.now : ℚ) + y)
        (by linarith) with h2 | ⟨r, h2, hr⟩
      · rw [h2]; rfl
      · rw [h2]
        simp only [newDate]
        split_ifs
        · have hr0 : (0 : ℚ) ≤ r := le_trans (Nat.cast_nonneg _) hr
          simp only [nowAfter, decide_eq_false_iff_not, not_lt, truncate_of_nonneg r hr0]
          exact Int.le_floor.2 (by exact_mod_cast hr)
        · rfl
    · have hlt : maxTime + 1 ≤ (amb.now : Int) := by omega
      have hq : (maxTime : ℚ) + 1 ≤ (amb.now : ℚ) := by exact_mod_cast hlt
      rw [newDate_roundDouble_none _ (by linarith)]
      rfl

/-- With a positive whole number of minutes the expiry date is exactly
`now + n * 60000` when that is a time value, and an Invalid Date otherwise. -/
theorem expiryDate_whole (amb : Ambient) (n : ℕ) :
    (((amb.now : Int) + (n : Int) * 60000 ≤ maxTime) →
      expiryDate amb (.num (.fin (n : ℚ))) = some ((amb.now : Int) + (n : Int) * 60000)) ∧
    ((maxTime < (amb.now : Int) + (n : Int) * 60000) →
      expiryDate amb (.num (.fin (n : ℚ))) = none) := by
  constructor
  · intro h
    have hq : (amb.now : ℚ) + (n : ℚ) * 60000 ≤ (maxTime : ℚ) := by exact_mod_cast h
    have hn0 : (0 : ℚ) ≤ (n : ℚ) * 60000 := by positivity
    have ha0 : (0 : ℚ) ≤ (amb.now : ℚ) := Nat.cast_nonneg _
    apply expiryDate_int amb (n : ℚ) (n : Int) (by push_cast; rfl)
    · push_cast; rw [abs_of_nonneg hn0]; linarith [maxTime_lt]
    · push_cast; rw [abs_of_nonneg (by linarith)]; exact hq
  · intro h
    have hq : (maxTime : ℚ) + 1 ≤ (amb.now : ℚ) + (n : ℚ) * 60000 := by
      have : maxTime + 1 ≤ (amb.now : Int) + (n : Int) * 60000 := by omega
      exact_mod_cast this
    have ha0 : (0 : ℚ) ≤ (amb.now : ℚ) := Nat.cast_nonneg _
    rw [expiryDate_fin]
    have hy : JSNum.roundDouble ((n : ℚ) * 60000) = .posInf ∨
        ∃ y : ℚ, JSNum.roundDouble ((n : ℚ) * 60000) = .fin y ∧
          (maxTime : ℚ) + 1 ≤ (amb.now : ℚ) + y := by
      by_cases hsmall : (n : ℚ) * 60000 ≤ (maxTime : ℚ)
      · right
        refine ⟨(n : ℚ) * 60000, ?_, hq⟩
        have h := JSNum.roundDouble_int ((n : Int) * 60000) (by
          push_cast
          rw [abs_of_nonneg (by positivity)]
          linarith [maxTime_lt])
        push_cast at h
        exact h
      · have hm : ((8640000000000001 : ℕ) : ℚ) = (maxTime : ℚ) + 1 := by norm_num [maxTime]
        have hbig : (maxTime : ℚ) + 1 ≤ (n : ℚ) * 60000 := by
          have h1 : maxTime < (n : Int) * 60000 := by
            have : (maxTime : ℚ) < (n : ℚ) * 60000 := not_le.1 hsmall
            exact_mod_cast this
          have h2 : maxTime + 1 ≤ (n : Int) * 60000 := by omega
          exact_mod_cast h2
        rcases JSNum.roundDouble_ge 8640000000000001 (by norm_num) ((n : ℚ) * 60000)
          (by rw [hm]; exact hbig) with h | ⟨y, h, hyb⟩
        · left; exact h
        · right
          rw [hm] at hyb
          exact ⟨y, h, by linarith⟩
    rcases hy with h | ⟨y, h, hyb⟩
    · rw [h]; rfl
    · rw [h]
      simp only [JSNum.add]
      exact newDate_roundDouble_none _ hyb

theorem selectActive_append (db : Store) (r : Row) (id : String) :
    selectActive (db ++ [r]) id = selectActive db id ++ selectActive [r] id := by
  simp [selectActive, List.filter_append]

theorem selectActive_eq_nil (db : Store) (id : String)
    (h : ∀ r ∈ db, r.NoteID = id → r.IsDeleted = true) : selectActive db id = [] := by
  simp only [selectActive, List.filter_eq_nil_iff]
  intro r hr
  have := h r hr
  by_cases hid : r.NoteID = id <;> simp [hid, this]

theorem selectActive_singleton (r : Row) (id : String) (hid : r.NoteID = id)
    (hd : r.IsDeleted = false) : selectActive [r] id = [r] := by
  simp [selectActive, hid, hd]

/-- The three outcomes of `getNote` when the database call succeeds, and its
outcome when the call fails. -/
theorem getNote_nil (amb : Ambient) (db : Store) (req : Request) (h : amb.dbError = none)
    (hs : selectActive db req.id = []) :
    getNote amb db req = (⟨404, .error "Note not found or deleted"⟩, db) := by
  simp [getNote, poolQuery, h, hs]

theorem getNote_cons (amb : Ambient) (db : Store) (req : Request) (h : amb.dbError = none)
    (r : Row) (rest : List Row) (hs : selectActive db req.id = r :: rest) :
    getNote amb db req =
      (if nowAfter amb.now r.ExpiryTime then ⟨410, .error "Note expired"⟩
        else ⟨200, .note r.EncryptedContent r.IV r.ViewOnce r.ExpiryTime⟩, db) := by
  simp only [getNote, poolQuery, h, hs]
  split <;> rfl

theorem getNote_error (amb : Ambient) (db : Store) (req : Request) (m : String)
    (h : amb.dbError = some m) : getNote amb db req = (⟨500, .error m⟩, db) := by
  simp [getNote, poolQuery, h]

theorem createNote_missing (amb : Ambient) (db : Store) (req : Request)
    (h : fieldsPresent req = false) :
    createNote amb db req = (⟨400, .error "Missing fields"⟩, db) := by
  have h2 : (!toBoolean req.body.encryptedContent || !toBoolean req.body.iv ||
      !toBoolean req.body.expiryMinutes) = true := by
    revert h; unfold fieldsPresent
    cases toBoolean req.body.encryptedContent <;> cases toBoolean req.body.iv <;>
      cases toBoolean req.body.expiryMinutes <;> simp
  simp only [createNote, h2, if_true]

theorem createNote_ok (amb : Ambient) (db : Store) (req : Request)
    (h : fieldsPresent req = true) (hdb : amb.dbError = none) :
    createNote amb db req = (⟨201, .created amb.uuid⟩, db ++ [createdRow amb req]) := by
  have h2 : (!toBoolean req.body.encryptedContent || !toBoolean req.body.iv ||
      !toBoolean req.body.expiryMinutes) = false := by
    revert h; unfold fieldsPresent
    cases toBoolean req.body.encryptedContent <;> cases toBoolean req.body.iv <;>
      cases toBoolean req.body.expiryMinutes <;> simp
  simp [createNote, h2, poolQuery, hdb, createdRow, defaultIsDeleted]

theorem createNote_error (amb : Ambient) (db : Store) (req : Request) (m : String)
    (h : fieldsPresent req = true) (hdb : amb.dbError = some m) :
    createNote amb db req = (⟨500, .error m⟩, db) := by
  have h2 : (!toBoolean req.body.encryptedContent || !toBoolean req.body.iv ||
      !toBoolean req.body.expiryMinutes) = false := by
    revert h; unfold fieldsPresent
    cases toBoolean req.body.encryptedContent <;> cases toBoolean req.body.iv <;>
      cases toBoolean req.body.expiryMinutes <;> simp
  simp [createNote, h2, poolQuery, hdb]

theorem deleteNote_ok (amb : Ambient) (db : Store) (req : Request) (hdb : amb.dbError = none) :
    deleteNote amb db req =
      (⟨200, .message "Note deleted (self-destructed)"⟩, markDeleted db req.id) := by
  simp [deleteNote, poolQuery, hdb]

theorem deleteNote_error (amb : Ambient) (db : Store) (req : Request) (m : String)
    (hdb : amb.dbError = some m) : deleteNote amb db req = (⟨500, .error m⟩, db) := by
  simp [deleteNote, poolQuery, hdb]

/-- The expiry dates of the concrete create requests. -/
theorem demo_expiry : expiryDate demoAmbient (.num (.fin 10)) = some 1600000 := by
  have h := expiryDate_int demoAmbient 10 10 (by norm_num) (by norm_num [abs_of_nonneg])
    (by norm_num [demoAmbient, maxTime, abs_of_nonneg])
  rw [h]
  simp [demoAmbient]

theorem demo_expiry_negative : expiryDate demoAmbient (.num (.fin (-5))) = some 700000 := by
  have h := expiryDate_int demoAmbient (-5) (-5) (by norm_num) (by norm_num [abs_of_nonneg])
    (by norm_num [demoAmbient, maxTime, abs_of_nonneg])
  rw [h]
  simp [demoAmbient]

/-! ## C1: create then fetch -/

/-- C1. When `createNote` is given non-empty strings for encryptedContent and iv
and a positive finite expiryMinutes, the generated id is not yet in the table
and the handler answers 201 with that id, then `getNote` for that id, at the
same clock instant and with a database call that succeeds, answers 200 and its
encryptedContent and iv are exactly the submitted strings. -/
theorem createNote_then_getNote (amb amb2 : Ambient) (db : Store) (req req2 : Request)
    (c i : String) (T : ℚ)
    (hc : req.body.encryptedContent = .str c) (hc0 : c ≠ "")
    (hi : req.body.iv = .str i) (hi0 : i ≠ "")
    (hT : req.body.expiryMinutes = .num (.fin T)) (hpos : 0 < T)
    (hfresh : ∀ r ∈ db, r.NoteID ≠ amb.uuid)
    (h201 : (createNote amb db req).1 = ⟨201, .created amb.uuid⟩)
    (hnow : amb2.now = amb.now) (hdb : amb2.dbError = none) (hid : req2.id = amb.uuid) :
    (getNote amb2 (createNote amb db req).2 req2).1 =
      ⟨200, .note (.str c) (.str i) (if toBoolean req.body.viewOnce then 1 else 0)
        (expiryDate amb (.num (.fin T)))⟩ := by
  have hne : T ≠ 0 := ne_of_gt hpos
  have hf : fieldsPresent req = true := by
    simp [fieldsPresent, hc, hi, hT, toBoolean_str, toBoolean_fin, hc0, hi0, hne]
  cases hdb1 : amb.dbError with
  | some m =>
    rw [createNote_error amb db req m hf hdb1] at h201
    simp at h201
  | none =>
    rw [createNote_ok amb db req hf hdb1]
    have hsel : selectActive (db ++ [createdRow amb req]) req2.id = [createdRow amb req] := by
      rw [selectActive_append, hid,
        selectActive_eq_nil db amb.uuid (fun r hr h => absurd h (hfresh r hr)),
        selectActive_singleton (createdRow amb req) amb.uuid rfl rfl]
      rfl
    rw [getNote_cons amb2 _ req2 hdb _ _ hsel]
    have hexp : nowAfter amb2.now (createdRow amb req).ExpiryTime = false := by
      rw [hnow]; simp only [createdRow, hT]; exact nowAfter_expiryDate_self amb T hpos
    rw [if_neg (by rw [hexp]; exact Bool.false_ne_true)]
    simp [createdRow, hc, hi, hT]

theorem createNote_then_getNote_witness :
    (createNote demoAmbient [] demoCreate).1 = ⟨201, .created "X"⟩ ∧
    (getNote demoAmbient (createNote demoAmbient [] demoCreate).2 (demoFor "bob")).1 =
      ⟨200, .note (.str "ABCD") (.str "1234") 1 (some 1600000)⟩ := by
  have h201 : (createNote demoAmbient [] demoCreate).1 = ⟨201, .created "X"⟩ := by
    simp [createNote, demoAmbient, demoCreate, toBoolean, poolQuery]
  refine ⟨h201, ?_⟩
  have h := createNote_then_getNote demoAmbient demoAmbient [] demoCreate (demoFor "bob")
    "ABCD" "1234" 10 rfl (by decide) rfl (by decide) rfl (by norm_num) (by simp) h201 rfl rfl rfl
  rw [h, demo_expiry]
  simp [demoCreate, toBoolean]

/-! ## C2: validation of a create request -/

/-- C2, as stated, fails: a create request whose expiryMinutes is -5 (not a
positive number) is not answered 400; it is answered 201 and a row is inserted
whose expiry lies 300000 ms before the instant of creation. -/
theorem createNote_negative_minutes_accepted :
    ¬ ((0 : ℚ) < -5) ∧
    createNote demoAmbient [] negativeCreate =
      (⟨201, .created "X"⟩,
        [{ NoteID := "X", UserID := "alice", EncryptedContent := .str "ABCD",
           IV := .str "1234", CreatedAt := 1000000, ExpiryTime := some 700000,
           ViewOnce := 1, IsDeleted := false }]) := by
  refine ⟨by norm_num, ?_⟩
  rw [createNote_ok demoAmbient [] negativeCreate (by simp [fieldsPresent, negativeCreate, toBoolean])
    rfl]
  have he : expiryDate demoAmbient negativeCreate.body.expiryMinutes = some 700000 :=
    demo_expiry_negative
  simp only [createdRow, he]
  simp [negativeCreate, toBoolean, demoAmbient]

/-- C2, amended. `createNote` answers 400 "Missing fields" and leaves the table
unchanged exactly when encryptedContent, iv or expiryMinutes is falsy, and a
value is falsy exactly when it is absent, null, false, NaN, zero or the empty
string (so every negative number passes the test). The table changes only when
all three are truthy, and then, when the database call succeeds, the answer is
201 and exactly the row bound to the INSERT is added. -/
theorem createNote_validation (amb : Ambient) (db : Store) (req : Request) :
    (((createNote amb db req).1 = ⟨400, .error "Missing fields"⟩ ∧
        (createNote amb db req).2 = db) ↔
      (toBoolean req.body.encryptedContent = false ∨ toBoolean req.body.iv = false ∨
        toBoolean req.body.expiryMinutes = false)) ∧
    (∀ v : JSVal, toBoolean v = false ↔
      (v = .undefined ∨ v = .null ∨ v = .bool false ∨ v = .num .nan ∨ v = .num (.fin 0) ∨
        v = .str "")) ∧
    (∀ q : ℚ, q < 0 → toBoolean (.num (.fin q)) = true) ∧
    ((createNote amb db req).2 ≠ db →
      toBoolean req.body.encryptedContent = true ∧ toBoolean req.body.iv = true ∧
        toBoolean req.body.expiryMinutes = true) ∧
    (toBoolean req.body.encryptedContent = true → toBoolean req.body.iv = true →
      toBoolean req.body.expiryMinutes = true → amb.dbError = none →
      createNote amb db req = (⟨201, .created amb.uuid⟩, db ++ [createdRow amb req])) := by
  have key : fieldsPresent req = false ↔
      (toBoolean req.body.encryptedContent = false ∨ toBoolean req.body.iv = false ∨
        toBoolean req.body.expiryMinutes = false) := by
    unfold fieldsPresent
    cases toBoolean req.body.encryptedContent <;> cases toBoolean req.body.iv <;>
      cases toBoolean req.body.expiryMinutes <;> simp
  have key2 : fieldsPresent req = true ↔
      (toBoolean req.body.encryptedContent = true ∧ toBoolean req.body.iv = true ∧
        toBoolean req.body.expiryMinutes = true) := by
    unfold fieldsPresent
    cases toBoolean req.body.encryptedContent <;> cases toBoolean req.body.iv <;>
      cases toBoolean req.body.expiryMinutes <;> simp
  refine ⟨?_, ?_, ?_, ?_, ?_⟩
  · rw [← key]
    constructor
    · intro h
      cases hf : fieldsPresent req with
      | false => rfl
      | true =>
        exfalso
        cases hdb : amb.dbError with
        | none => rw [createNote_ok amb db req hf hdb] at h; simp at h
        | some m => rw [createNote_error amb db req m hf hdb] at h; simp at h
    · intro h
      rw [createNote_missing amb db req h]
      exact ⟨rfl, rfl⟩
  · intro v
    cases v with
    | undefined => simp [toBoolean]
    | null => simp [toBoolean]
    | bool b => cases b <;> simp [toBoolean]
    | num n => cases n <;> simp [toBoolean]
    | str s => simp [toBoolean]
  · intro q hq
    exact toBoolean_fin q (ne_of_lt hq)
  · intro h
    rw [← key2]
    cases hf : fieldsPresent req with
    | true => rfl
    | false => exact absurd (by rw [createNote_missing amb db req hf]) h
  · intro h1 h2 h3 hdb
    exact createNote_ok amb db req (key2.2 ⟨h1, h2, h3⟩) hdb

/-! ## C3: who may delete -/

/-- C3, as stated, fails: bob, who is not the owner alice of note X, deletes
it. Before his request `getNote` serves the note; `deleteNote` answers him 200,
the row has IsDeleted true afterwards and `getNote` answers 404. -/
theorem deleteNote_by_non_owner :
    "bob" ≠ demoRow.UserID ∧
    (getNote demoAmbient [demoRow] (demoFor "bob")).1 =
      ⟨200, .note (.str "ABCD") (.str "1234") 1 (some 1600000)⟩ ∧
    deleteNote demoAmbient [demoRow] (demoFor "bob") =
      (⟨200, .message "Note deleted (self-destructed)"⟩, [{ demoRow with IsDeleted := true }]) ∧
    (getNote demoAmbient (deleteNote demoAmbient [demoRow] (demoFor "bob")).2 (demoFor "bob")).1 =
      ⟨404, .error "Note not found or deleted"⟩ := by
  refine ⟨by decide, ?_, ?_, ?_⟩
  · rw [getNote_cons demoAmbient [demoRow] (demoFor "bob") rfl demoRow []
      (by simp [selectActive, demoRow, demoFor])]
    simp [nowAfter, demoRow, demoAmbient]
  · rw [deleteNote_ok demoAmbient [demoRow] (demoFor "bob") rfl]
    simp [markDeleted, demoRow, demoFor]
  · rw [deleteNote_ok demoAmbient [demoRow] (demoFor "bob") rfl]
    rw [getNote_nil demoAmbient _ (demoFor "bob") rfl (by simp [selectActive, markDeleted, demoRow, demoFor])]

/-- C3, amended. `deleteNote` does not look at the requester: its answer and
the table it leaves are the same for every user id of the request. It never
answers with a forbidden status: the status is 200 or 500, and when the
database call succeeds it is 200 and every row with that NoteID has IsDeleted
true afterwards, whoever owns it. -/
theorem deleteNote_ignores_requester (amb : Ambient) (db : Store) (req : Request) :
    (∀ user : String, deleteNote amb db { req with userId := user } = deleteNote amb db req) ∧
    ((deleteNote amb db req).1.status = 200 ∨ (deleteNote amb db req).1.status = 500) ∧
    (amb.dbError = none →
      (deleteNote amb db req).1 = ⟨200, .message "Note deleted (self-destructed)"⟩ ∧
      ∀ r ∈ (deleteNote amb db req).2, r.NoteID = req.id → r.IsDeleted = true) := by
  refine ⟨fun user => rfl, ?_, ?_⟩
  · cases hdb : amb.dbError with
    | none => left; rw [deleteNote_ok amb db req hdb]
    | some m => right; rw [deleteNote_error amb db req m hdb]
  · intro hdb
    rw [deleteNote_ok amb db req hdb]
    refine ⟨rfl, ?_⟩
    intro r hr hid
    simp only [markDeleted, List.mem_map] at hr
    obtain ⟨r0, _, rfl⟩ := hr
    by_cases h0 : r0.NoteID = req.id
    · simp [h0]
    · simp [h0] at hid

theorem mem_markDeleted_isDeleted (db : Store) (id : String) (r : Row)
    (hr : r ∈ markDeleted db id) (hid : r.NoteID = id) : r.IsDeleted = true := by
  simp only [markDeleted, List.mem_map] at hr
  obtain ⟨r0, _, rfl⟩ := hr
  by_cases h0 : r0.NoteID = id
  · simp [h0]
  · simp [h0] at hid

/-! ## C5: absent and deleted notes -/

/-- C5. When the database call succeeds, `getNote` answers 404 with the body
"Note not found or deleted" both when no row has the requested NoteID and when
every row with that NoteID has IsDeleted true: the same status and the same
body. Consequently, after a `deleteNote` for that id that answered 200,
`getNote` answers that 404 at every instant, whatever the expiry time of the
note. -/
theorem getNote_absent_or_deleted (amb : Ambient) (db : Store) (req : Request)
    (hdb : amb.dbError = none) :
    ((∀ r ∈ db, r.NoteID ≠ req.id) →
      getNote amb db req = (⟨404, .error "Note not found or deleted"⟩, db)) ∧
    ((∀ r ∈ db, r.NoteID = req.id → r.IsDeleted = true) →
      getNote amb db req = (⟨404, .error "Note not found or deleted"⟩, db)) ∧
    (∀ (amb1 : Ambient) (req1 : Request), req1.id = req.id →
      (deleteNote amb1 db req1).1.status = 200 →
      (getNote amb (deleteNote amb1 db req1).2 req).1 =
        ⟨404, .error "Note not found or deleted"⟩) := by
  refine ⟨?_, ?_, ?_⟩
  · intro h
    exact getNote_nil amb db req hdb
      (selectActive_eq_nil db req.id (fun r hr hid => absurd hid (h r hr)))
  · intro h
    exact getNote_nil amb db req hdb (selectActive_eq_nil db req.id h)
  · intro amb1 req1 hid h200
    cases hdb1 : amb1.dbError with
    | some m => rw [deleteNote_error amb1 db req1 m hdb1] at h200; simp at h200
    | none =>
      rw [deleteNote_ok amb1 db req1 hdb1, hid]
      rw [getNote_nil amb _ req hdb
        (selectActive_eq_nil _ req.id (fun r hr h => mem_markDeleted_isDeleted db req.id r hr h))]

theorem getNote_absent_or_deleted_witness :
    (getNote demoAmbient [] (demoFor "bob")).1 = ⟨404, .error "Note not found or deleted"⟩ ∧
    (getNote demoAmbient [{ demoRow with IsDeleted := true }] (demoFor "bob")).1 =
      ⟨404, .error "Note not found or deleted"⟩ ∧
    (getNote demoAmbient (deleteNote demoAmbient [demoRow] (demoFor "alice")).2
      (demoFor "bob")).1 = ⟨404, .error "Note not found or deleted"⟩ := by
  refine ⟨?_, ?_, ?_⟩
  · rw [(getNote_absent_or_deleted demoAmbient [] (demoFor "bob") rfl).1 (by simp)]
  · rw [(getNote_absent_or_deleted demoAmbient [{ demoRow with IsDeleted := true }]
      (demoFor "bob") rfl).2.1 (by simp)]
  · exact (getNote_absent_or_deleted demoAmbient [demoRow] (demoFor "bob") rfl).2.2
      demoAmbient (demoFor "alice") rfl (by simp [deleteNote, poolQuery, demoAmbient])

/-! ## C7: fetching is read-only -/

/-- C7. `getNote` leaves the table exactly as it found it, for every table,
ambient and request (whatever the ViewOnce column of the note), so a second
`getNote` with the same inputs gives the same answer and the same table. -/
theorem getNote_read_only (amb : Ambient) (db : Store) (req : Request) :
    (getNote amb db req).2 = db ∧
    getNote amb (getNote amb db req).2 req = getNote amb db req := by
  have h : (getNote amb db req).2 = db := by
    cases hdb : amb.dbError with
    | some m => rw [getNote_error amb db req m hdb]
    | none =>
      cases hs : selectActive db req.id with
      | nil => rw [getNote_nil amb db req hdb hs]
      | cons r rest => rw [getNote_cons amb db req hdb r rest hs]
  exact ⟨h, by rw [h]⟩

/-! ## C8: what a database failure returns -/

/-- C8, as stated, fails: the answer depends on the text of the database error
and carries it. With two different error messages `getNote` gives two different
answers, each holding the message in its `error` field; so do `createNote` and
`deleteNote`. -/
theorem store_error_text_returned :
    (getNote (failingAmbient "connect ECONNREFUSED 127.0.0.1:3306") [] (demoFor "bob")).1 =
      ⟨500, .error "connect ECONNREFUSED 127.0.0.1:3306"⟩ ∧
    (getNote (failingAmbient "Table privenote.Notes does not exist") [] (demoFor "bob")).1 =
      ⟨500, .error "Table privenote.Notes does not exist"⟩ ∧
    (getNote (failingAmbient "connect ECONNREFUSED 127.0.0.1:3306") [] (demoFor "bob")).1 ≠
      (getNote (failingAmbient "Table privenote.Notes does not exist") [] (demoFor "bob")).1 ∧
    (createNote (failingAmbient "connect ECONNREFUSED 127.0.0.1:3306") [] demoCreate).1 =
      ⟨500, .error "connect ECONNREFUSED 127.0.0.1:3306"⟩ ∧
    (deleteNote (failingAmbient "connect ECONNREFUSED 127.0.0.1:3306") [] (demoFor "bob")).1 =
      ⟨500, .error "connect ECONNREFUSED 127.0.0.1:3306"⟩ := by
  refine ⟨?_, ?_, ?_, ?_, ?_⟩
  · rw [getNote_error _ [] (demoFor "bob") _ rfl]
  · rw [getNote_error _ [] (demoFor "bob") _ rfl]
  · rw [getNote_error _ [] (demoFor "bob") _ rfl, getNote_error _ [] (demoFor "bob") _ rfl]
    decide
  · rw [createNote_error _ [] demoCreate _ (by simp [fieldsPresent, demoCreate, toBoolean]) rfl]
  · rw [deleteNote_error _ [] (demoFor "bob") _ rfl]

/-- C8, amended. Whenever the database call fails with an error whose message
is `m`, each of the three handlers answers 500 with the body whose `error`
field is `m` itself (for `createNote`, once the fields test has passed). -/
theorem store_error_answer (amb : Ambient) (db : Store) (req : Request) (m : String)
    (hdb : amb.dbError = some m) :
    (fieldsPresent req = true → (createNote amb db req).1 = ⟨500, .error m⟩) ∧
    (getNote amb db req).1 = ⟨500, .error m⟩ ∧
    (deleteNote amb db req).1 = ⟨500, .error m⟩ :=
  ⟨fun h => by rw [createNote_error amb db req m h hdb],
    by rw [getNote_error amb db req m hdb],
    by rw [deleteNote_error amb db req m hdb]⟩

theorem store_error_answer_witness :
    (createNote (failingAmbient "ETIMEDOUT") [demoRow] demoCreate).1 =
      ⟨500, .error "ETIMEDOUT"⟩ ∧
    (getNote (failingAmbient "ETIMEDOUT") [demoRow] (demoFor "bob")).1 =
      ⟨500, .error "ETIMEDOUT"⟩ ∧
    (deleteNote (failingAmbient "ETIMEDOUT") [demoRow] (demoFor "bob")).1 =
      ⟨500, .error "ETIMEDOUT"⟩ :=
  ⟨(store_error_answer (failingAmbient "ETIMEDOUT") [demoRow] demoCreate "ETIMEDOUT" rfl).1
      (by simp [fieldsPresent, demoCreate, toBoolean]),
    (store_error_answer (failingAmbient "ETIMEDOUT") [demoRow] (demoFor "bob") "ETIMEDOUT"
      rfl).2.1,
    (store_error_answer (failingAmbient "ETIMEDOUT") [demoRow] (demoFor "bob") "ETIMEDOUT"
      rfl).2.2⟩

theorem markDeleted_idem (db : Store) (id : String) :
    markDeleted (markDeleted db id) id = markDeleted db id := by
  simp only [markDeleted, List.map_map]
  apply List.map_congr_left
  intro r _
  by_cases h : r.NoteID = id <;> simp [h]

/-! ## C9: deleting twice -/

/-- C9. `deleteNote` is idempotent whatever the table holds for the id (an
active row, a row already deleted, or no row): a second `deleteNote` for the
same id, with the same outcome of the database call, gives the same answer and
the same table as the first alone. When the call succeeds the answer is the
acknowledgement with status 200, the table keeps its length and order, each
row with that NoteID becomes the same row with IsDeleted true, and every other
row is unchanged. -/
theorem deleteNote_idempotent (amb amb2 : Ambient) (db : Store) (req : Request) :
    (amb2.dbError = amb.dbError →
      deleteNote amb2 (deleteNote amb db req).2 req = deleteNote amb db req) ∧
    (amb.dbError = none →
      (deleteNote amb db req).1 = ⟨200, .message "Note deleted (self-destructed)"⟩ ∧
      (deleteNote amb db req).2.length = db.length ∧
      ∀ (i : Nat) (r : Row), db[i]? = some r →
        (deleteNote amb db req).2[i]? =
          some (if r.NoteID = req.id then { r with IsDeleted := true } else r)) := by
  constructor
  · intro h
    cases hdb : amb.dbError with
    | some m =>
      rw [deleteNote_error amb db req m hdb, deleteNote_error amb2 db req m (h.trans hdb)]
    | none =>
      rw [deleteNote_ok amb db req hdb, deleteNote_ok amb2 _ req (h.trans hdb), markDeleted_idem]
  · intro hdb
    rw [deleteNote_ok amb db req hdb]
    refine ⟨rfl, by simp [markDeleted], ?_⟩
    intro i r hr
    simp [markDeleted, List.getElem?_map, hr]

theorem mem_markDeleted_of_deleted (db : Store) (id : String) (r : Row) (hr : r ∈ db)
    (hd : r.IsDeleted = true) : r ∈ markDeleted db id := by
  simp only [markDeleted, List.mem_map]
  refine ⟨r, hr, ?_⟩
  by_cases h : r.NoteID = id
  · simp only [h, if_true]
    cases r
    simp_all
  · simp [h]

/-- The table after a step is the table before it, or that table with the
created row appended, or that table with the rows of the id marked deleted. -/
theorem step_store (op : Op) (amb : Ambient) (db : Store) (req : Request) :
    (step op amb db req).2 = db ∨ (step op amb db req).2 = db ++ [createdRow amb req] ∨
      (step op amb db req).2 = markDeleted db req.id := by
  cases hdb : amb.dbError with
  | some m =>
    left
    cases op with
    | create =>
      cases hf : fieldsPresent req with
      | false => simp only [step]; rw [createNote_missing amb db req hf]
      | true => simp only [step]; rw [createNote_error amb db req m hf hdb]
    | get => simp only [step]; rw [getNote_error amb db req m hdb]
    | delete => simp only [step]; rw [deleteNote_error amb db req m hdb]
  | none =>
    cases op with
    | create =>
      cases hf : fieldsPresent req with
      | false => left; simp only [step]; rw [createNote_missing amb db req hf]
      | true => right; left; simp only [step]; rw [createNote_ok amb db req hf hdb]
    | get =>
      left
      cases hs : selectActive db req.id with
      | nil => simp only [step]; rw [getNote_nil amb db req hdb hs]
      | cons r rest => simp only [step]; rw [getNote_cons amb db req hdb r rest hs]
    | delete => right; right; simp only [step]; rw [deleteNote_ok amb db req hdb]

theorem step_keeps_deleted (op : Op) (amb : Ambient) (db : Store) (req : Request) (r : Row)
    (hr : r ∈ db) (hd : r.IsDeleted = true) : r ∈ (step op amb db req).2 := by
  rcases step_store op amb db req with h | h | h
  · rw [h]; exact hr
  · rw [h]; exact List.mem_append_left _ hr
  · rw [h]; exact mem_markDeleted_of_deleted db req.id r hr hd

theorem run_keeps_deleted (trace : List (Op × Ambient × Request)) :
    ∀ (db : Store) (r : Row), r ∈ db → r.IsDeleted = true → r ∈ run db trace := by
  induction trace with
  | nil => intro db r hr _; exact hr
  | cons x rest ih =>
    intro db r hr hd
    obtain ⟨op, amb, req⟩ := x
    exact ih _ r (step_keeps_deleted op amb db req r hr hd) hd

theorem selectActive_mem (db : Store) (id : String) (r : Row) (h : r ∈ selectActive db id) :
    r ∈ db ∧ r.NoteID = id ∧ r.IsDeleted = false := by
  simp only [selectActive, List.mem_filter, Bool.and_eq_true, decide_eq_true_eq,
    Bool.not_eq_true'] at h
  exact ⟨h.1, h.2.1, h.2.2⟩

/-! ## C6: deletion is permanent -/

/-- C6. IsDeleted is monotonic. (1) For each single operation `createNote`,
`getNote` or `deleteNote`, with arbitrary arguments and ambient, every row
whose IsDeleted is true before the operation is still in the table, with
IsDeleted true, after it. (2) The same holds along every finite sequence of
operations. (3) So, after any finite sequence of operations run from a table
holding a deleted row, in a table whose NoteIDs are unique `getNote` for the
id of that row answers 404 (or 500 when the database call fails), never the
note. (4) In every table, a note served by `getNote` is a row of the table
whose IsDeleted is false. -/
theorem isDeleted_monotonic :
    (∀ (op : Op) (amb : Ambient) (db : Store) (req : Request) (r : Row),
      r ∈ db → r.IsDeleted = true →
        r ∈ (step op amb db req).2 ∧ r.IsDeleted = true) ∧
    (∀ (db : Store) (trace : List (Op × Ambient × Request)) (r : Row),
      r ∈ db → r.IsDeleted = true → r ∈ run db trace ∧ r.IsDeleted = true) ∧
    (∀ (db : Store) (trace : List (Op × Ambient × Request)) (r : Row) (amb : Ambient)
      (req : Request),
      r ∈ db → r.IsDeleted = true → UniqueIds (run db trace) → req.id = r.NoteID →
        (getNote amb (run db trace) req).1 = ⟨404, .error "Note not found or deleted"⟩ ∨
          ∃ m, amb.dbError = some m ∧ (getNote amb (run db trace) req).1 = ⟨500, .error m⟩) ∧
    (∀ (amb : Ambient) (db : Store) (req : Request),
      (getNote amb db req).1.status = 200 →
        ∃ r ∈ db, r.NoteID = req.id ∧ r.IsDeleted = false ∧
          (getNote amb db req).1.body =
            .note r.EncryptedContent r.IV r.ViewOnce r.ExpiryTime) := by
  refine ⟨?_, ?_, ?_, ?_⟩
  · intro op amb db req r hr hd
    exact ⟨step_keeps_deleted op amb db req r hr hd, hd⟩
  · intro db trace r hr hd
    exact ⟨run_keeps_deleted trace db r hr hd, hd⟩
  · intro db trace r amb req hr hd huniq hid
    have hr2 : r ∈ run db trace := run_keeps_deleted trace db r hr hd
    cases hdb : amb.dbError with
    | some m => right; exact ⟨m, rfl, by rw [getNote_error amb _ req m hdb]⟩
    | none =>
      left
      rw [getNote_nil amb _ req hdb]
      apply selectActive_eq_nil
      intro r2 hr2mem hid2
      have : r2 = r :=
        List.inj_on_of_nodup_map huniq hr2mem hr2 (by rw [hid2, hid])
      rw [this]; exact hd
  · intro amb db req h200
    cases hdb : amb.dbError with
    | some m => rw [getNote_error amb db req m hdb] at h200; simp at h200
    | none =>
      cases hs : selectActive db req.id with
      | nil => rw [getNote_nil amb db req hdb hs] at h200; simp at h200
      | cons r rest =>
        have hmem := selectActive_mem db req.id r (by rw [hs]; exact List.mem_cons_self _ _)
        rw [getNote_cons amb db req hdb r rest hs] at h200 ⊢
        refine ⟨r, hmem.1, hmem.2.1, hmem.2.2, ?_⟩
        by_cases hexp : nowAfter amb.now r.ExpiryTime = true
        · simp [hexp] at h200
        · simp [hexp]

/-- A 201 answer of `createNote` means the row bound to the INSERT was added. -/
theorem createNote_201 (amb : Ambient) (db : Store) (req : Request)
    (h : (createNote amb db req).1.status = 201) :
    createNote amb db req = (⟨201, .created amb.uuid⟩, db ++ [createdRow amb req]) := by
  cases hf : fieldsPresent req with
  | false => rw [createNote_missing amb db req hf] at h; simp at h
  | true =>
    cases hdb : amb.dbError with
    | some m => rw [createNote_error amb db req m hf hdb] at h; simp at h
    | none => exact createNote_ok amb db req hf hdb

/-! ## C4: the expiry boundary -/

/-- The expiry date of the request `fractionalCreate` made at instant
1793836800123: the exact sum 1793836860122.99994... is rounded to the double
1793836860123. -/
theorem fractional_expiry :
    expiryDate (demoAt 1793836800123) (.num (.fin (1073741823 / 1073741824))) =
      some 1793836860123 := by
  rw [expiryDate_fin]
  have h1 : JSNum.roundDouble ((1073741823 : ℚ) / 1073741824 * 60000) =
      .fin ((1073741823 : ℚ) / 1073741824 * 60000) := by
    have h := JSNum.roundDouble_near ((1073741823 : ℚ) / 1073741824 * 60000) 15
      8246337200640000
      (by norm_num [abs_of_nonneg]) (by norm_num [abs_of_nonneg]) (by norm_num)
      (by norm_num [abs_of_nonneg]) (by norm_num) (by norm_num)
    rw [h]; norm_num
  have h2 : JSNum.roundDouble ((1793836800123 : ℚ) + (1073741823 : ℚ) / 1073741824 * 60000) =
      .fin ((1793836860123 : Int) : ℚ) := by
    have h := JSNum.roundDouble_near
      ((1793836800123 : ℚ) + (1073741823 : ℚ) / 1073741824 * 60000) 40 (1793836860123 * 4096)
      (by norm_num [abs_of_nonneg]) (by norm_num [abs_of_nonneg]) (by norm_num)
      (by norm_num [abs_lt]) (by norm_num) (by norm_num)
    rw [h]; norm_num
  have hnow : (((demoAt 1793836800123).now : ℕ) : ℚ) = (1793836800123 : ℚ) := by
    simp [demoAt]
  rw [h1, hnow]
  simp only [JSNum.add]
  rw [h2]
  simp only [newDate]
  rw [if_pos (by norm_num [maxTime, abs_of_nonneg]), truncate_int]

/-- C4, as stated, fails for a fractional number of minutes. A note is created
at instant t0 = 1793836800123 with expiryMinutes T = 1073741823 / 1073741824
(a double, positive). The instant t = 1793836860123 is later than
t0 + T * 60000 = 1793836860122.99994..., yet `getNote` at t answers 200 with the
note: the doubles of `Date.now() + expiryMinutes * 60000` round the sum to
1793836860123, which is the stored ExpiryTime, and t is not after it. -/
theorem getNote_served_past_exact_expiry :
    (0 : ℚ) < 1073741823 / 1073741824 ∧
    ((1793836800123 : ℕ) : ℚ) + 1073741823 / 1073741824 * 60000 < ((1793836860123 : ℕ) : ℚ) ∧
    (createNote (demoAt 1793836800123) [] fractionalCreate).1 = ⟨201, .created "X"⟩ ∧
    (getNote (demoAt 1793836860123) (createNote (demoAt 1793836800123) [] fractionalCreate).2
        (demoFor "bob")).1 =
      ⟨200, .note (.str "ABCD") (.str "1234") 1 (some 1793836860123)⟩ := by
  have hf : fieldsPresent fractionalCreate = true := by
    simp [fieldsPresent, fractionalCreate, toBoolean]
  have hcreate := createNote_ok (demoAt 1793836800123) [] fractionalCreate hf rfl
  have hsel : selectActive ([] ++ [createdRow (demoAt 1793836800123) fractionalCreate])
      (demoFor "bob").id = [createdRow (demoAt 1793836800123) fractionalCreate] :=
    selectActive_singleton _ _ rfl rfl
  have hexp : (createdRow (demoAt 1793836800123) fractionalCreate).ExpiryTime =
      some 1793836860123 := fractional_expiry
  refine ⟨by norm_num, by norm_num, by rw [hcreate]; rfl, ?_⟩
  rw [hcreate, getNote_cons (demoAt 1793836860123) _ (demoFor "bob") rfl _ _ hsel, hexp]
  simp [nowAfter, demoAt, createdRow, fractionalCreate, toBoolean]

/-- C4, amended. Let a note be created at instant t0 (`amb0.now`) with
expiryMinutes a positive finite number T, and let its row `createdRow amb0 req0`
be the row the SELECT of `getNote` finds first for the requested id, so that it
is not deleted; (1) this is the case in the table a `createNote` answering 201
leaves, when the generated id was not yet in the table. (2) The ExpiryTime of
the row is the Date of the double `Date.now() + expiryMinutes * 60000`. At
every clock instant t (`amb.now`, a time value a Date can hold), with a
database call that succeeds, (3) `getNote` answers 410 "Note expired" exactly
when ExpiryTime is a valid date before t, and (4) answers 200 with the note
otherwise; (5) it answers 200 at the instant of creation and at every instant
before it. (6) When T is a whole number of minutes, `getNote` answers 410
exactly when t > t0 + T * 60000 and answers 200 with the note for every
t ≤ t0 + T * 60000; in particular it succeeds e before the expiry instant and
answers 410 e after it, for every e > 0. -/
theorem getNote_expiry_boundary (amb0 : Ambient) (req0 : Request) (T : ℚ)
    (amb : Ambient) (db : Store) (req : Request)
    (hT : req0.body.expiryMinutes = .num (.fin T)) (hpos : 0 < T)
    (hrow : (selectActive db req.id).head? = some (createdRow amb0 req0))
    (hdb : amb.dbError = none) (hclock : (amb.now : Int) ≤ maxTime) :
    (∀ db0 : Store, (∀ r ∈ db0, r.NoteID ≠ amb0.uuid) →
      (createNote amb0 db0 req0).1.status = 201 →
      (selectActive (createNote amb0 db0 req0).2 amb0.uuid).head? =
        some (createdRow amb0 req0)) ∧
    (createdRow amb0 req0).ExpiryTime = expiryDate amb0 (.num (.fin T)) ∧
    ((getNote amb db req).1 = ⟨410, .error "Note expired"⟩ ↔
      ∃ e : Int, expiryDate amb0 (.num (.fin T)) = some e ∧ e < (amb.now : Int)) ∧
    ((¬ ∃ e : Int, expiryDate amb0 (.num (.fin T)) = some e ∧ e < (amb.now : Int)) →
      (getNote amb db req).1 =
        ⟨200, .note req0.body.encryptedContent req0.body.iv
          (if toBoolean req0.body.viewOnce then 1 else 0) (expiryDate amb0 (.num (.fin T)))⟩) ∧
    (amb.now ≤ amb0.now → (getNote amb db req).1.status = 200) ∧
    (∀ n : ℕ, T = (n : ℚ) →
      ((getNote amb db req).1 = ⟨410, .error "Note expired"⟩ ↔
        (amb0.now : ℚ) + T * 60000 < (amb.now : ℚ)) ∧
      ((amb.now : ℚ) ≤ (amb0.now : ℚ) + T * 60000 →
        (getNote amb db req).1 =
          ⟨200, .note req0.body.encryptedContent req0.body.iv
            (if toBoolean req0.body.viewOnce then 1 else 0)
            (expiryDate amb0 (.num (.fin T)))⟩) ∧
      (∀ e : ℚ, 0 < e →
        ((amb.now : ℚ) = (amb0.now : ℚ) + T * 60000 - e →
          (getNote amb db req).1.status = 200) ∧
        ((amb.now : ℚ) = (amb0.now : ℚ) + T * 60000 + e →
          (getNote amb db req).1 = ⟨410, .error "Note expired"⟩))) := by
  obtain ⟨rest, hs⟩ : ∃ rest, selectActive db req.id = createdRow amb0 req0 :: rest := by
    cases hsel : selectActive db req.id with
    | nil => rw [hsel] at hrow; simp at hrow
    | cons r rest =>
      rw [hsel] at hrow
      simp only [List.head?_cons, Option.some.injEq] at hrow
      exact ⟨rest, by rw [hrow]⟩
  have hget := getNote_cons amb db req hdb _ rest hs
  have hexp : (createdRow amb0 req0).ExpiryTime = expiryDate amb0 (.num (.fin T)) := by
    simp only [createdRow, hT]
  have hafter : nowAfter amb.now (expiryDate amb0 (.num (.fin T))) = true ↔
      ∃ e : Int, expiryDate amb0 (.num (.fin T)) = some e ∧ e < (amb.now : Int) := by
    cases hv : expiryDate amb0 (.num (.fin T)) with
    | none => simp [nowAfter]
    | some v => simp [nowAfter]
  have h410 : (getNote amb db req).1 = ⟨410, .error "Note expired"⟩ ↔
      nowAfter amb.now (expiryDate amb0 (.num (.fin T))) = true := by
    rw [hget, hexp]
    by_cases h : nowAfter amb.now (expiryDate amb0 (.num (.fin T))) = true
    · simp [h]
    · simp [h]
  have h200 : ¬ nowAfter amb.now (expiryDate amb0 (.num (.fin T))) = true →
      (getNote amb db req).1 =
        ⟨200, .note req0.body.encryptedContent req0.body.iv
          (if toBoolean req0.body.viewOnce then 1 else 0) (expiryDate amb0 (.num (.fin T)))⟩ := by
    intro hn
    rw [hget, hexp, if_neg hn]
    simp [createdRow, hT]
  have hwhole : ∀ n : ℕ, T = (n : ℚ) →
      (nowAfter amb.now (expiryDate amb0 (.num (.fin T))) = true ↔
        (amb0.now : ℚ) + T * 60000 < (amb.now : ℚ)) := by
    intro n hn
    obtain ⟨hv, hi⟩ := expiryDate_whole amb0 n
    rw [hn]
    by_cases hr : (amb0.now : Int) + (n : Int) * 60000 ≤ maxTime
    · rw [hv hr]
      simp only [nowAfter, decide_eq_true_eq]
      constructor
      · intro h; exact_mod_cast h
      · intro h; exact_mod_cast h
    · rw [hi (not_le.1 hr)]
      simp only [nowAfter]
      constructor
      · intro h; cases h
      · intro h
        exfalso
        have h2 : (amb0.now : Int) + (n : Int) * 60000 < (amb.now : Int) := by exact_mod_cast h
        omega
  refine ⟨?_, hexp, h410.trans hafter, fun h => h200 (fun h2 => h (hafter.1 h2)), ?_, ?_⟩
  · intro db0 hfresh h201
    rw [createNote_201 amb0 db0 req0 h201, selectActive_append,
      selectActive_eq_nil db0 amb0.uuid (fun r hr h => absurd h (hfresh r hr)),
      selectActive_singleton (createdRow amb0 req0) amb0.uuid rfl rfl]
    rfl
  · intro hle
    have hself := nowAfter_expiryDate_self amb0 T hpos
    have hn : ¬ nowAfter amb.now (expiryDate amb0 (.num (.fin T))) = true := by
      intro h2
      obtain ⟨e, he, hlt⟩ := hafter.1 h2
      rw [he] at hself
      simp only [nowAfter, decide_eq_false_iff_not, not_lt] at hself
      omega
    rw [h200 hn]
  · intro n hn
    have hw := hwhole n hn
    refine ⟨h410.trans hw, fun hle => h200 (fun h2 => absurd (hw.1 h2) (not_lt.2 hle)), ?_⟩
    intro e he
    constructor
    · intro ht
      rw [h200 (fun h2 => absurd (hw.1 h2) (not_lt.2 (by rw [ht]; linarith)))]
    · intro ht
      exact (h410.trans hw).2 (by rw [ht]; linarith)

theorem getNote_expiry_boundary_witness :
    (getNote (demoAt 1600000) (createNote demoAmbient [] demoCreate).2 (demoFor "bob")).1 =
      ⟨200, .note (.str "ABCD") (.str "1234") 1 (expiryDate demoAmbient (.num (.fin 10)))⟩ ∧
    (getNote (demoAt 1600001) (createNote demoAmbient [] demoCreate).2 (demoFor "bob")).1 =
      ⟨410, .error "Note expired"⟩ := by
  have hsel : (selectActive (createNote demoAmbient [] demoCreate).2 (demoFor "bob").id).head? =
      some (createdRow demoAmbient demoCreate) := by
    rw [createNote_ok demoAmbient [] demoCreate (by simp [fieldsPresent, demoCreate, toBoolean])
      rfl]
    simp [selectActive, createdRow, demoFor, demoAmbient]
  constructor
  · exact ((getNote_expiry_boundary demoAmbient demoCreate 10 (demoAt 1600000) _ (demoFor "bob")
      rfl (by norm_num) hsel rfl (by simp [demoAt, maxTime])).2.2.2.2.2 10 (by norm_num)).2.1
      (by simp [demoAt, demoAmbient]; norm_num)
  · exact ((getNote_expiry_boundary demoAmbient demoCreate 10 (demoAt 1600001) _ (demoFor "bob")
      rfl (by norm_num) hsel rfl (by simp [demoAt, maxTime])).2.2.2.2.2 10 (by norm_num)).1.2
      (by simp [demoAt, demoAmbient]; norm_num)

/-! ## C10: the attempts counter of the viewer -/

namespace Viewer

/-- One failed verification: the counter, the error card and its title. -/
theorem verifyFailed_effect (m : String) (p : Page) (nd : NoteData)
    (hnd : p.noteData = some nd) :
    (verifyFailed m p).noteData =
        some { nd with attemptsLeft :=
          if 0 < nd.attemptsLeft then nd.attemptsLeft - 1 else nd.attemptsLeft } ∧
      (verifyFailed m p).display "errorState" =
        (if nd.attemptsLeft = 1 then true else p.display "errorState") ∧
      (verifyFailed m p).errorTitle =
        (if nd.attemptsLeft = 1 then "Maximum Attempts Exceeded" else p.errorTitle) := by
  by_cases hpos : 0 < nd.attemptsLeft
  · by_cases h1 : nd.attemptsLeft = 1
    · simp [verifyFailed, showToast, hnd, h1, showError, showState, updateAttemptsDisplay,
        states]
    · have h0 : ¬ nd.attemptsLeft - 1 = 0 := by omega
      simp [verifyFailed, showToast, hnd, hpos, h1, h0, updateAttemptsDisplay]
  · have h1 : ¬ nd.attemptsLeft = 1 := by omega
    simp [verifyFailed, showToast, hnd, hpos, h1]

/-- The page after a list of failed verifications. -/
theorem failures_effect (msgs : List String) :
    ∀ (p : Page) (nd : NoteData), p.noteData = some nd → 0 ≤ nd.attemptsLeft →
      (failures p msgs).noteData =
          some { nd with attemptsLeft := max (nd.attemptsLeft - msgs.length) 0 } ∧
        ((failures p msgs).display "errorState" = true ↔
          (p.display "errorState" = true ∨
            (1 ≤ nd.attemptsLeft ∧ nd.attemptsLeft ≤ msgs.length))) ∧
        ((1 ≤ nd.attemptsLeft ∧ nd.attemptsLeft ≤ msgs.length) →
          (failures p msgs).errorTitle = "Maximum Attempts Exceeded") ∧
        (¬ (1 ≤ nd.attemptsLeft ∧ nd.attemptsLeft ≤ msgs.length) →
          (failures p msgs).errorTitle = p.errorTitle) := by
  induction msgs with
  | nil =>
    intro p nd hnd h0
    refine ⟨?_, ?_, ?_, ?_⟩
    · simp [failures, hnd, max_eq_left h0]
    · simp only [failures, List.length_nil, Nat.cast_zero]
      constructor
      · intro h; exact Or.inl h
      · rintro (h | ⟨h1, h2⟩)
        · exact h
        · omega
    · rintro ⟨h1, h2⟩; simp only [List.length_nil, Nat.cast_zero] at h2; omega
    · intro _; rfl
  | cons m rest ih =>
    intro p nd hnd h0
    obtain ⟨e1, e2, e3⟩ := verifyFailed_effect m p nd hnd
    have h0' : 0 ≤ (if 0 < nd.attemptsLeft then nd.attemptsLeft - 1 else nd.attemptsLeft) := by
      split <;> omega
    obtain ⟨i1, i2, i3, i4⟩ := ih (verifyFailed m p) _ e1 h0'
    simp only [failures, List.length_cons, Nat.cast_add, Nat.cast_one]
    simp only at i1 i2 i3 i4
    refine ⟨?_, ?_, ?_, ?_⟩
    · rw [i1]
      congr 2
      by_cases hpos : 0 < nd.attemptsLeft
      · simp only [hpos, if_true]
        congr 1; omega
      · simp only [hpos, if_false]
        have : nd.attemptsLeft = 0 := by omega
        rw [this]
        rw [max_eq_right (by omega), max_eq_right (by omega)]
    · rw [i2, e2]
      by_cases h1 : nd.attemptsLeft = 1
      · simp only [h1, if_true, true_or, true_iff]
        right; omega
      · simp only [h1, if_false]
        by_cases hpos : 0 < nd.attemptsLeft
        · simp only [hpos, if_true]
          constructor
          · rintro (h | ⟨ha, hb⟩)
            · exact Or.inl h
            · right; omega
          · rintro (h | ⟨ha, hb⟩)
            · exact Or.inl h
            · right; omega
        · simp only [hpos, if_false]
          constructor
          · rintro (h | ⟨ha, hb⟩)
            · exact Or.inl h
            · omega
          · rintro (h | ⟨ha, hb⟩)
            · exact Or.inl h
            · omega
    · rintro ⟨ha, hb⟩
      by_cases h1 : nd.attemptsLeft = 1
      · by_cases hc : (1 : Int) ≤ (if 0 < nd.attemptsLeft then nd.attemptsLeft - 1
            else nd.attemptsLeft) ∧
            (if 0 < nd.attemptsLeft then nd.attemptsLeft - 1 else nd.attemptsLeft) ≤ rest.length
        · exact i3 hc
        · rw [i4 hc, e3, if_pos h1]
      · apply i3
        have hpos : 0 < nd.attemptsLeft := by omega
        simp only [hpos, if_true]
        omega
    · intro hn
      have h1 : ¬ nd.attemptsLeft = 1 := by
        intro h; apply hn; omega
      have hc : ¬ ((1 : Int) ≤ (if 0 < nd.attemptsLeft then nd.attemptsLeft - 1
            else nd.attemptsLeft) ∧
            (if 0 < nd.attemptsLeft then nd.attemptsLeft - 1 else nd.attemptsLeft) ≤
              rest.length) := by
        by_cases hpos : 0 < nd.attemptsLeft
        · simp only [hpos, if_true]; omega
        · simp only [hpos, if_false]; omega
      rw [i4 hc, e3, if_neg h1]

end Viewer

namespace Viewer

/-- The handler part of C10. Let the page hold a note with attemptsLeft = N ≥ 1
and not show the error card. (1) Each failed verification decrements
attemptsLeft by exactly 1 while it is positive and leaves it unchanged
otherwise. (2) After any number k of failures attemptsLeft is max (N - k) 0,
hence between 0 and N, and (3) one more failure never increases it. (4) The
error card with the title "Maximum Attempts Exceeded" is shown exactly when
k ≥ N, that is, from the N-th failure on and after no earlier one, and (5)
attemptsLeft is 0 exactly then. -/
theorem attempts_exhaustion (p : Page) (nd : NoteData) (N : Int)
    (hnd : p.noteData = some nd) (hN : nd.attemptsLeft = N) (h1 : 1 ≤ N)
    (hcard : p.display "errorState" = false) :
    (∀ (q : Page) (d : NoteData) (m : String), q.noteData = some d →
      (verifyFailed m q).noteData =
        some { d with attemptsLeft :=
          if 0 < d.attemptsLeft then d.attemptsLeft - 1 else d.attemptsLeft }) ∧
    (∀ msgs : List String, ∃ d, (failures p msgs).noteData = some d ∧
      d.attemptsLeft = max (N - msgs.length) 0 ∧ 0 ≤ d.attemptsLeft ∧ d.attemptsLeft ≤ N) ∧
    (∀ (msgs : List String) (m : String), ∃ d e, (failures p msgs).noteData = some d ∧
      (failures p (msgs ++ [m])).noteData = some e ∧ e.attemptsLeft ≤ d.attemptsLeft) ∧
    (∀ msgs : List String,
      ((failures p msgs).display "errorState" = true ∧
        (failures p msgs).errorTitle = "Maximum Attempts Exceeded") ↔ N ≤ msgs.length) ∧
    (∀ msgs : List String, ∃ d, (failures p msgs).noteData = some d ∧
      (d.attemptsLeft = 0 ↔ N ≤ msgs.length)) := by
  have h0 : 0 ≤ nd.attemptsLeft := by omega
  refine ⟨?_, ?_, ?_, ?_, ?_⟩
  · intro q d m hq
    exact (verifyFailed_effect m q d hq).1
  · intro msgs
    obtain ⟨e1, _⟩ := failures_effect msgs p nd hnd h0
    refine ⟨_, e1, ?_, ?_, ?_⟩
    · simp only [hN]
    · exact le_max_right _ _
    · simp only [hN]
      exact max_le (by omega) (by omega)
  · intro msgs m
    obtain ⟨e1, _⟩ := failures_effect msgs p nd hnd h0
    obtain ⟨e2, _⟩ := failures_effect (msgs ++ [m]) p nd hnd h0
    refine ⟨_, _, e1, e2, ?_⟩
    simp only [List.length_append, List.length_singleton, Nat.cast_add, Nat.cast_one]
    exact max_le_max (by omega) le_rfl
  · intro msgs
    obtain ⟨_, e2, e3, e4⟩ := failures_effect msgs p nd hnd h0
    rw [hN] at e2 e3 e4
    constructor
    · rintro ⟨hd, _⟩
      rcases e2.1 hd with h | ⟨_, h⟩
      · rw [hcard] at h; cases h
      · exact h
    · intro h
      exact ⟨e2.2 (Or.inr ⟨h1, h⟩), e3 ⟨h1, h⟩⟩
  · intro msgs
    obtain ⟨e1, _⟩ := failures_effect msgs p nd hnd h0
    refine ⟨_, e1, ?_⟩
    simp only [hN]
    constructor
    · intro h
      by_contra hlt
      rw [max_eq_left (by omega)] at h
      omega
    · intro h
      exact max_eq_right (by omega)

/-- The counter and the error card on a note loaded with three attempts,
after two and after three failed verifications. -/
theorem attempts_exhaustion_witness :
    ((failures (demoPage 3) ["no", "no"]).display "errorState" = true ∧
        (failures (demoPage 3) ["no", "no"]).errorTitle = "Maximum Attempts Exceeded" ↔
      (3 : Int) ≤ (2 : Nat)) ∧
    ((failures (demoPage 3) ["no", "no", "no"]).display "errorState" = true ∧
        (failures (demoPage 3) ["no", "no", "no"]).errorTitle = "Maximum Attempts Exceeded" ↔
      (3 : Int) ≤ (3 : Nat)) :=
  ⟨(attempts_exhaustion (demoPage 3) _ 3 rfl rfl (by decide) (by decide)).2.2.2.1 ["no", "no"],
    (attempts_exhaustion (demoPage 3) _ 3 rfl rfl (by decide) (by decide)).2.2.2.1
      ["no", "no", "no"]⟩

/-- C10, at the failing input. On the page where three failed verifications
have brought attemptsLeft of a note loaded with three attempts to 0 and the
error card "Maximum Attempts Exceeded" is shown, `loadNoteMetadata` (what a
reload of the link runs) does not refuse access: it throws nothing, and the
note it leaves in `noteData` has attemptsLeft 3 again. The same holds on every
page, since the object checked is the simulated one the function has just
assigned. -/
theorem load_after_exhaustion :
    (∃ d, (failures (demoPage 3) ["no", "no", "no"]).noteData = some d ∧ d.attemptsLeft = 0) ∧
    (failures (demoPage 3) ["no", "no", "no"]).display "errorState" = true ∧
    (loadNoteMetadata "X" 1000000 1000000 "0.5"
      (failures (demoPage 3) ["no", "no", "no"])).2 = none ∧
    (∃ d, (loadNoteMetadata "X" 1000000 1000000 "0.5"
        (failures (demoPage 3) ["no", "no", "no"])).1.noteData = some d ∧
      d.attemptsLeft = 3) ∧
    (∀ (p : Page) (noteId random : String) (now nowCheck : Nat),
      (nowCheck : Int) ≤ (now : Int) + 600000 →
      (loadNoteMetadata noteId now nowCheck random p).2 = none ∧
      ∃ d, (loadNoteMetadata noteId now nowCheck random p).1.noteData = some d ∧
        d.attemptsLeft = 3) := by
  obtain ⟨e1, e2, _, _⟩ := failures_effect ["no", "no", "no"] (demoPage 3) _ rfl (by decide)
  have hgen : ∀ (p : Page) (noteId random : String) (now nowCheck : Nat),
      (nowCheck : Int) ≤ (now : Int) + 600000 →
      (loadNoteMetadata noteId now nowCheck random p).2 = none ∧
      ∃ d, (loadNoteMetadata noteId now nowCheck random p).1.noteData = some d ∧
        d.attemptsLeft = 3 := by
    intro p noteId random now nowCheck h
    have hexp : ¬ (simulatedMetadata noteId now random).expiryTime < (nowCheck : Int) := by
      simp only [simulatedMetadata]; omega
    have hatt : ¬ (simulatedMetadata noteId now random).attemptsLeft ≤ 0 := by
      simp [simulatedMetadata]
    simp only [loadNoteMetadata, if_neg hexp, if_neg hatt]
    exact ⟨trivial, _, rfl, rfl⟩
  refine ⟨⟨_, e1, by decide⟩, e2.2 (Or.inr ⟨by decide, by decide⟩), ?_, ?_, hgen⟩
  · exact (hgen _ "X" "0.5" 1000000 1000000 (by norm_num)).1
  · exact (hgen _ "X" "0.5" 1000000 1000000 (by norm_num)).2

end Viewer

/-! ## Auxiliary facts on the share link -/

theorem takeWhile_append_stop {α : Type} (p : α → Bool) (l1 : List α) (x : α) (l2 : List α)
    (h1 : ∀ a ∈ l1, p a = true) (hx : p x = false) :
    (l1 ++ x :: l2).takeWhile p = l1 := by
  induction l1 with
  | nil => simp [List.takeWhile, hx]
  | cons a l ih =>
    have ha : p a = true := h1 a (List.mem_cons_self _ _)
    rw [List.cons_append, List.takeWhile_cons, ha, if_pos rfl,
      ih (fun b hb => h1 b (List.mem_cons_of_mem _ hb))]

theorem dropWhile_append_stop {α : Type} (p : α → Bool) (l1 : List α) (x : α) (l2 : List α)
    (h1 : ∀ a ∈ l1, p a = true) (hx : p x = false) :
    (l1 ++ x :: l2).dropWhile p = x :: l2 := by
  induction l1 with
  | nil => simp [List.dropWhile, hx]
  | cons a l ih =>
    have ha : p a = true := h1 a (List.mem_cons_self _ _)
    rw [List.cons_append, List.dropWhile_cons, ha, if_pos rfl]
    exact ih (fun b hb => h1 b (List.mem_cons_of_mem _ hb))

theorem takeWhile_all {α : Type} (p : α → Bool) (l : List α) (h : ∀ a ∈ l, p a = true) :
    l.takeWhile p = l := by
  induction l with
  | nil => rfl
  | cons a l ih =>
    rw [List.takeWhile_cons, h a (List.mem_cons_self _ _), if_pos rfl,
      ih (fun b hb => h b (List.mem_cons_of_mem _ hb))]

/-- Letters and digits are none of the characters that structure a link. -/
theorem alphanum_plain (c : Char) (h : c.isAlphanum = true) :
    c ≠ '#' ∧ c ≠ '?' ∧ c ≠ '&' ∧ c ≠ '=' ∧ c ≠ '+' ∧ c ≠ '%' := by
  refine ⟨?_, ?_, ?_, ?_, ?_, ?_⟩ <;> (intro hc; rw [hc] at h; revert h; decide)

theorem base64_plain (c : Char) (h : Viewer.isBase64Char c = true) : c ≠ '#' ∧ c ≠ '&' := by
  refine ⟨?_, ?_⟩ <;> (intro hc; rw [hc] at h; revert h; decide)

/-- The characters of the fixed text of the link up to its `?`. -/
theorem path_plain : ∀ c ∈ "/frontend/view-note.html".data, c ≠ '#' ∧ c ≠ '?' := by
  decide

/-- The share link, character by character. -/
theorem shareLink_data (origin noteId key : String) :
    (Creator.shareLink origin noteId key).data =
      (origin.data ++ "/frontend/view-note.html".data) ++
        '?' :: (('i' :: 'd' :: '=' :: noteId.data) ++ '#' :: ('k' :: 'e' :: 'y' :: '=' :: key.data)) := by
  simp [Creator.shareLink, String.data_append]

/-- The part of the share link before its first `#`. -/
theorem beforeHash_shareLink (origin noteId key : String)
    (ho : '#' ∉ origin.data) (hid : ∀ c ∈ noteId.data, c.isAlphanum = true) :
    Creator.beforeHash (Creator.shareLink origin noteId key) =
      origin ++ "/frontend/view-note.html?id=" ++ noteId := by
  have hfront : ∀ c ∈ (origin.data ++ "/frontend/view-note.html".data) ++
      '?' :: ('i' :: 'd' :: '=' :: noteId.data), (fun c => decide (c ≠ '#')) c = true := by
    intro c hc
    simp only [decide_eq_true_eq]
    rcases List.mem_append.1 hc with h | h
    · rcases List.mem_append.1 h with h | h
      · intro hc; rw [hc] at h; exact ho h
      · exact (path_plain c h).1
    · simp only [List.mem_cons] at h
      rcases h with h | h | h | h | h
      · rw [h]; decide
      · rw [h]; decide
      · rw [h]; decide
      · rw [h]; decide
      · exact (alphanum_plain c (hid c h)).1
  have hdata : (Creator.shareLink origin noteId key).data =
      ((origin.data ++ "/frontend/view-note.html".data) ++
        '?' :: ('i' :: 'd' :: '=' :: noteId.data)) ++
        '#' :: ('k' :: 'e' :: 'y' :: '=' :: key.data) := by
    rw [shareLink_data]; simp
  apply String.ext
  simp only [Creator.beforeHash]
  rw [hdata, takeWhile_append_stop _ _ _ _ hfront (by decide)]
  simp [String.data_append]

/-- What the browser gives for `location.search` and `location.hash` at the
share link. -/
theorem locationOf_shareLink (origin noteId key : String)
    (ho1 : '#' ∉ origin.data) (ho2 : '?' ∉ origin.data)
    (hid : ∀ c ∈ noteId.data, c.isAlphanum = true) :
    Viewer.locationOf (Creator.shareLink origin noteId key) =
      { search := "?id=" ++ noteId, hash := "#key=" ++ key } := by
  have hfront : ∀ c ∈ (origin.data ++ "/frontend/view-note.html".data) ++
      '?' :: ('i' :: 'd' :: '=' :: noteId.data), (fun c => decide (c ≠ '#')) c = true := by
    intro c hc
    simp only [decide_eq_true_eq]
    rcases List.mem_append.1 hc with h | h
    · rcases List.mem_append.1 h with h | h
      · intro hc; rw [hc] at h; exact ho1 h
      · exact (path_plain c h).1
    · simp only [List.mem_cons] at h
      rcases h with h | h | h | h | h
      · rw [h]; decide
      · rw [h]; decide
      · rw [h]; decide
      · rw [h]; decide
      · exact (alphanum_plain c (hid c h)).1
  have hpath : ∀ c ∈ origin.data ++ "/frontend/view-note.html".data,
      (fun c => decide (c ≠ '?')) c = true := by
    intro c hc
    simp only [decide_eq_true_eq]
    rcases List.mem_append.1 hc with h | h
    · intro hc; rw [hc] at h; exact ho2 h
    · exact (path_plain c h).2
  have hdata : (Creator.shareLink origin noteId key).data =
      ((origin.data ++ "/frontend/view-note.html".data) ++
        '?' :: ('i' :: 'd' :: '=' :: noteId.data)) ++
        '#' :: ('k' :: 'e' :: 'y' :: '=' :: key.data) := by
    rw [shareLink_data]; simp
  simp only [Viewer.locationOf]
  rw [hdata, takeWhile_append_stop _ _ _ _ hfront (by decide),
    dropWhile_append_stop _ _ _ _ hfront (by decide),
    dropWhile_append_stop _ _ _ _ hpath (by decide)]
  simp only [List.drop_succ_cons, List.drop_zero]
  rw [if_neg (by simp), if_neg (by simp)]
  rfl

/-- Percent-decoding changes nothing in a text without `%`. -/
theorem percentDecode_plain (utf8Decode : List Nat → List Char) (l : List Char)
    (h : ∀ c ∈ l, c ≠ '%') : Viewer.percentDecode utf8Decode [] l = l := by
  induction l with
  | nil => simp [Viewer.percentDecode]
  | cons c rest ih =>
    have hc : c ≠ '%' := h c (List.mem_cons_self _ _)
    have ih2 := ih (fun b hb => h b (List.mem_cons_of_mem _ hb))
    rcases rest with _ | ⟨a, _ | ⟨b, rest2⟩⟩
    · simp [Viewer.percentDecode]
    · simp [Viewer.percentDecode]
    · simp only [Viewer.percentDecode, hc, if_false, if_true, List.nil_append]
      rw [ih2]

theorem formDecode_alphanum (utf8Decode : List Nat → List Char) (l : List Char)
    (h : ∀ c ∈ l, c.isAlphanum = true) : Viewer.formDecode utf8Decode l = l := by
  have hmap : l.map (fun c => if c = '+' then ' ' else c) = l := by
    conv_rhs => rw [← List.map_id l]
    apply List.map_congr_left
    intro c hc
    simp [(alphanum_plain c (h c hc)).2.2.2.2.1]
  rw [Viewer.formDecode, hmap]
  exact percentDecode_plain utf8Decode l (fun c hc => (alphanum_plain c (h c hc)).2.2.2.2.2)

theorem splitOnChar_none (sep : Char) (l : List Char) (h : ∀ c ∈ l, c ≠ sep) :
    Viewer.splitOnChar sep l = [l] := by
  induction l with
  | nil => rfl
  | cons c rest ih =>
    simp only [Viewer.splitOnChar, h c (List.mem_cons_self _ _), if_false,
      ih (fun b hb => h b (List.mem_cons_of_mem _ hb))]

/-- The query parameter `id` read back from the search part of the share link. -/
theorem urlSearchParamsGet_id (utf8Decode : List Nat → List Char) (noteId : String)
    (hid : ∀ c ∈ noteId.data, c.isAlphanum = true) :
    Viewer.urlSearchParamsGet utf8Decode ("?id=" ++ noteId) "id" = some noteId := by
  have hdata : ("?id=" ++ noteId).data = '?' :: 'i' :: 'd' :: '=' :: noteId.data := by
    simp [String.data_append]
  have hsplit : Viewer.splitOnChar '&' ('i' :: 'd' :: '=' :: noteId.data) =
      ['i' :: 'd' :: '=' :: noteId.data] := by
    apply splitOnChar_none
    intro c hc
    simp only [List.mem_cons] at hc
    rcases hc with h | h | h | h
    · rw [h]; decide
    · rw [h]; decide
    · rw [h]; decide
    · exact (alphanum_plain c (hid c h)).2.2.1
  have hname : Viewer.formDecode utf8Decode ['i', 'd'] = ['i', 'd'] :=
    formDecode_alphanum utf8Decode _ (by decide)
  have hvalue := formDecode_alphanum utf8Decode noteId.data hid
  have htake : ('i' :: 'd' :: '=' :: noteId.data).takeWhile (fun c => decide (c ≠ '=')) =
      ['i', 'd'] :=
    takeWhile_append_stop (fun c => decide (c ≠ '=')) ['i', 'd'] '=' noteId.data
      (by decide) (by decide)
  have hdrop : ('i' :: 'd' :: '=' :: noteId.data).dropWhile (fun c => decide (c ≠ '=')) =
      '=' :: noteId.data :=
    dropWhile_append_stop (fun c => decide (c ≠ '=')) ['i', 'd'] '=' noteId.data
      (by decide) (by decide)
  simp only [Viewer.urlSearchParamsGet, hdata, List.head?_cons, if_true, List.drop_succ_cons,
    List.drop_zero, hsplit, List.filterMap_cons, List.filterMap_nil, htake, hdrop, hname, hvalue]
  simp

/-- The key captured by the regular expression in the hash of the share link. -/
theorem matchKey_hash (key : String) (hk : ∀ c ∈ key.data, Viewer.isBase64Char c = true)
    (hk0 : key ≠ "") :
    Viewer.matchKey ("#key=" ++ key).data = some key.data := by
  have hdata : ("#key=" ++ key).data = '#' :: 'k' :: 'e' :: 'y' :: '=' :: key.data := by
    simp [String.data_append]
  have htake : key.data.takeWhile (fun c => decide (c ≠ '&')) = key.data :=
    takeWhile_all _ _ (fun c hc => by
      simp only [decide_eq_true_eq]; exact (base64_plain c (hk c hc)).2)
  have hne : key.data ≠ [] := by
    intro h; apply hk0; apply String.ext; rw [h]
  rw [hdata]
  simp only [Viewer.matchKey, Viewer.keyAt, htake, if_neg hne]

/-- What the viewer reads from the share link. -/
theorem readLink_shareLink (utf8Decode : List Nat → List Char) (origin noteId key : String)
    (ho1 : '#' ∉ origin.data) (ho2 : '?' ∉ origin.data)
    (hid : ∀ c ∈ noteId.data, c.isAlphanum = true)
    (hk : ∀ c ∈ key.data, Viewer.isBase64Char c = true) (hk0 : key ≠ "") :
    Viewer.readLink utf8Decode (Viewer.locationOf (Creator.shareLink origin noteId key)) =
      { noteId := some noteId, encryptionKey := some key } := by
  rw [locationOf_shareLink origin noteId key ho1 ho2 hid]
  simp only [Viewer.readLink, urlSearchParamsGet_id utf8Decode noteId hid,
    matchKey_hash key hk hk0, Option.map_some']

theorem chars_alphanum : ∀ c ∈ Creator.chars.data, c.isAlphanum = true := by
  decide

/-- An index within the 62 characters gives one letter or digit. -/
theorem charAt_chars (k : Int) (h0 : 0 ≤ k) (h1 : k < 62) :
    ∃ c, Creator.charAt Creator.chars k = String.singleton c ∧ c.isAlphanum = true := by
  have hlen : Creator.chars.data.length = 62 := by decide
  have hlt : k.toNat < Creator.chars.data.length := by omega
  refine ⟨Creator.chars.data[k.toNat], ?_, chars_alphanum _ (List.getElem_mem hlt)⟩
  simp [Creator.charAt, h0, List.getElem?_eq_getElem hlt]

theorem random_index (r : ℚ) (h0 : 0 ≤ r) (h1 : r < 1) :
    0 ≤ ⌊r * (Creator.chars.length : ℚ)⌋ ∧ ⌊r * (Creator.chars.length : ℚ)⌋ < 62 := by
  have hlen : (Creator.chars.length : ℚ) = 62 := by
    have : Creator.chars.length = 62 := by decide
    rw [this]; norm_num
  rw [hlen]
  constructor
  · exact Int.floor_nonneg.2 (by positivity)
  · rw [Int.floor_lt]; push_cast; linarith

/-- Each round of the loop of `generateNoteId` adds one letter or digit. -/
theorem generate_rounds (random : Nat → ℚ) (hr : ∀ i, 0 ≤ random i ∧ random i < 1)
    (rounds : List Nat) :
    ∀ acc : String, (∀ c ∈ acc.data, c.isAlphanum = true) →
      (rounds.foldl (fun id i =>
          id ++ Creator.charAt Creator.chars ⌊random i * (Creator.chars.length : ℚ)⌋)
        acc).data.length = acc.data.length + rounds.length ∧
      ∀ c ∈ (rounds.foldl (fun id i =>
          id ++ Creator.charAt Creator.chars ⌊random i * (Creator.chars.length : ℚ)⌋)
        acc).data, c.isAlphanum = true := by
  induction rounds with
  | nil => intro acc hacc; exact ⟨rfl, hacc⟩
  | cons i rest ih =>
    intro acc hacc
    obtain ⟨hi0, hi1⟩ := random_index (random i) (hr i).1 (hr i).2
    obtain ⟨ch, hch, halnum⟩ := charAt_chars _ hi0 hi1
    simp only [List.foldl_cons, hch]
    have hs : (acc ++ String.singleton ch).data = acc.data ++ [ch] := by
      rw [String.data_append]; rfl
    have hacc2 : ∀ c ∈ (acc ++ String.singleton ch).data, c.isAlphanum = true := by
      intro c hc
      rw [hs] at hc
      rcases List.mem_append.1 hc with h | h
      · exact hacc c h
      · rw [List.mem_singleton.1 h]; exact halnum
    obtain ⟨e1, e2⟩ := ih (acc ++ String.singleton ch) hacc2
    refine ⟨?_, e2⟩
    rw [e1, hs, List.length_append, List.length_singleton, List.length_cons]
    omega

/-- The ids `generateNoteId` returns are 12 letters and digits. -/
theorem generateNoteId_alphanum (random : Nat → ℚ) (hr : ∀ i, 0 ≤ random i ∧ random i < 1) :
    (Creator.generateNoteId random).data.length = 12 ∧
      ∀ c ∈ (Creator.generateNoteId random).data, c.isAlphanum = true := by
  obtain ⟨e1, e2⟩ := generate_rounds random hr (List.range 12) "" (by simp)
  refine ⟨?_, e2⟩
  rw [Creator.generateNoteId, e1]
  simp

/-! ## C11: the key travels in the fragment only -/

/-- C11. For every origin (a text without `#` and `?`, as
`window.location.origin` is), every note id made only of ASCII letters and
digits (not empty: the ids `generateNoteId` returns are 12 such characters,
conjunct 7) and every non-empty key made only of base64 characters: the share
link places the key only after the `#`, that is, (1) the part of the link
before `#` is the origin, the path of the viewer page and the id, (2) the same
whatever the key is, and (3) the object `noteMetadata` is built without the
key: it is the same whatever the exported key is; (4) the browser gives `?id=`
followed by the id as search and `#key=` followed by the key as hash; (5) the
viewer reads back exactly the same id and the same key, and (6) accepts the
link as valid. -/
theorem share_link_round_trip (utf8Decode : List Nat → List Char)
    (origin noteId key : String)
    (ho1 : '#' ∉ origin.data) (ho2 : '?' ∉ origin.data)
    (hid : ∀ c ∈ noteId.data, c.isAlphanum = true) (hid0 : noteId ≠ "")
    (hk : ∀ c ∈ key.data, Viewer.isBase64Char c = true) (hk0 : key ≠ "") :
    Creator.beforeHash (Creator.shareLink origin noteId key) =
      origin ++ "/frontend/view-note.html?id=" ++ noteId ∧
    (∀ key2 : String, Creator.beforeHash (Creator.shareLink origin noteId key2) =
      Creator.beforeHash (Creator.shareLink origin noteId key)) ∧
    (∀ (s : Creator.Submission) (k : String),
      Creator.noteMetadata { s with keyBase64 := k } = Creator.noteMetadata s) ∧
    Viewer.locationOf (Creator.shareLink origin noteId key) =
      { search := "?id=" ++ noteId, hash := "#key=" ++ key } ∧
    Viewer.readLink utf8Decode (Viewer.locationOf (Creator.shareLink origin noteId key)) =
      { noteId := some noteId, encryptionKey := some key } ∧
    Viewer.invalidLink
      (Viewer.readLink utf8Decode (Viewer.locationOf (Creator.shareLink origin noteId key))) =
        false ∧
    (∀ p : Viewer.Page, Viewer.validateLink
      (Viewer.readLink utf8Decode (Viewer.locationOf (Creator.shareLink origin noteId key))) p =
        (p, true)) ∧
    (∀ random : Nat → ℚ, (∀ i, 0 ≤ random i ∧ random i < 1) →
      (Creator.generateNoteId random).length = 12 ∧
      (∀ c ∈ (Creator.generateNoteId random).data, c.isAlphanum = true) ∧
      Creator.generateNoteId random ≠ "") := by
  have hread := readLink_shareLink utf8Decode origin noteId key ho1 ho2 hid hk hk0
  have hvalid : Viewer.invalidLink
      (Viewer.readLink utf8Decode (Viewer.locationOf (Creator.shareLink origin noteId key))) =
        false := by
    rw [hread]
    simp [Viewer.invalidLink, Viewer.truthy, hid0, hk0]
  refine ⟨beforeHash_shareLink origin noteId key ho1 hid, ?_, fun s k => rfl,
    locationOf_shareLink origin noteId key ho1 ho2 hid, hread, hvalid, ?_, ?_⟩
  · intro key2
    rw [beforeHash_shareLink origin noteId key2 ho1 hid,
      beforeHash_shareLink origin noteId key ho1 hid]
  · intro p
    simp only [Viewer.validateLink, hvalid]
    rfl
  · intro random hr
    obtain ⟨e1, e2⟩ := generateNoteId_alphanum random hr
    refine ⟨e1, e2, ?_⟩
    intro h
    rw [h] at e1
    exact absurd e1 (by decide)

theorem share_link_round_trip_witness :
    Viewer.readLink Viewer.demoDecode
        (Viewer.locationOf
          (Creator.shareLink "http://127.0.0.1:5500" "aB3dE6gH9jK2" "QUJD+/RA==")) =
      { noteId := some "aB3dE6gH9jK2", encryptionKey := some "QUJD+/RA==" } ∧
    Viewer.invalidLink (Viewer.readLink Viewer.demoDecode
        (Viewer.locationOf
          (Creator.shareLink "http://127.0.0.1:5500" "aB3dE6gH9jK2" "QUJD+/RA=="))) = false :=
  ⟨(share_link_round_trip Viewer.demoDecode "http://127.0.0.1:5500" "aB3dE6gH9jK2"
      "QUJD+/RA==" (by decide) (by decide) (by decide) (by decide) (by decide)
      (by decide)).2.2.2.2.1,
    (share_link_round_trip Viewer.demoDecode "http://127.0.0.1:5500" "aB3dE6gH9jK2"
      "QUJD+/RA==" (by decide) (by decide) (by decide) (by decide) (by decide)
      (by decide)).2.2.2.2.2.1⟩

end PriveNote
